import Mathlib

/-
Verification development for the ScadaIFOX time-series analytics engine.

The Python sources are shallowly embedded here:
  * timestamps (ISO-8601 TEXT in SQLite) are modelled as epoch seconds (Int);
    comparing ISO strings of the same format agrees with comparing epochs, and
    SQLite strftime converts them exactly, so the model is faithful at
    second granularity (the collector writes second-granularity timestamps,
    see save_to_sqlite which calls replace(microsecond=0));
  * SQLite REAL values are modelled as rationals; the value column is
    dynamically typed, so a cell can also hold NULL or non-numeric text,
    modelled by the SVal type;
  * Python dicts are modelled as association lists with insertion-order
    semantics (set keeps position for an existing key, appends a new key;
    pop removes the entry);
  * fallible Python conversions (int(x) / float(x), which raise ValueError on
    non-numeric text) are modelled with Except.
-/

deriving instance DecidableEq for Except

namespace ScadaIFOX

/-! ## Rounding

Python round(x, n) rounds half to even; SQLite ROUND(x, n) rounds half
away from zero.  Both are modelled exactly on rationals. -/

/-- Round a rational to the nearest integer, ties to even (Python round). -/
def roundHalfEvenZ (q : ℚ) : Int :=
  if q - (⌊q⌋ : ℚ) < 1/2 then ⌊q⌋
  else if 1/2 < q - (⌊q⌋ : ℚ) then ⌊q⌋ + 1
  else if ⌊q⌋ % 2 = 0 then ⌊q⌋ else ⌊q⌋ + 1

/-- Model of Python round(x, n) on rationals. -/
def pyRound (n : ℕ) (q : ℚ) : ℚ :=
  (roundHalfEvenZ (q * (10 : ℚ) ^ n) : ℚ) / (10 : ℚ) ^ n

/-- Round a rational to the nearest integer, ties away from zero (SQLite ROUND). -/
def roundHalfAwayZ (q : ℚ) : Int :=
  if q ≥ 0 then ⌊q + 1/2⌋ else - ⌊-q + 1/2⌋

/-- Model of SQLite ROUND(x, n) on rationals. -/
def sqlRound (n : ℕ) (q : ℚ) : ℚ :=
  (roundHalfAwayZ (q * (10 : ℚ) ^ n) : ℚ) / (10 : ℚ) ^ n

/-! ## Python dict model (insertion-ordered association lists) -/

/-- Dict lookup: d.get(k). -/
def dictGet {α : Type} (l : List (String × α)) (k : String) : Option α :=
  (l.find? (fun p => p.1 = k)).map Prod.snd

/-- Dict lookup with default: d.get(k, v0). -/
def dictGetD {α : Type} (l : List (String × α)) (k : String) (v0 : α) : α :=
  (dictGet l k).getD v0

/-- Dict assignment d[k] = v: overwrite in place if the key exists (keeping
its position), otherwise append at the end (Python insertion order). -/
def dictSet {α : Type} (l : List (String × α)) (k : String) (v : α) :
    List (String × α) :=
  if l.any (fun p => p.1 = k) then
    l.map (fun p => if p.1 = k then (k, v) else p)
  else l ++ [(k, v)]

/-- Dict removal d.pop(k, None). -/
def dictPop {α : Type} (l : List (String × α)) (k : String) : List (String × α) :=
  l.filter (fun p => p.1 ≠ k)

/-- First-occurrence deduplication (used where the source materializes a set
of keys or a GROUP BY key list). -/
def dedupKeys {α : Type} [DecidableEq α] (seen : List α) : List α → List α
  | [] => []
  | k :: rest =>
    if k ∈ seen then dedupKeys seen rest else k :: dedupKeys (k :: seen) rest

/-! ## Period resolution (calculations.py, periodo helpers)

Python datetimes are modelled as epoch seconds.  Truncating a datetime to
midnight is exact epoch arithmetic; the first-of-month / first-of-year
replacements need calendar structure that epoch arithmetic does not have, so
they are taken as parameters (monthStart / yearStart).  The reference time
now is a parameter: the source calls datetime.now(), and the claims fix a
single reference time. -/

/-- Midnight (00:00:00) of the day containing epoch second t. -/
def midnight (t : Int) : Int := 86400 * (Int.fdiv t 86400)

/-- Embedding of periodo_para_datas (calculations.py).  The ontem branch
sets the end to 23:59:59.999999 of yesterday; at the second granularity of
the stored timestamps this is the last second of yesterday, start + 86399. -/
def periodo_para_datas (monthStart yearStart : Int → Int) (now : Int)
    (periodo : String) : Int × Int :=
  if periodo = "hoje" then (midnight now, now)
  else if periodo = "ontem" then
    let s := midnight (now - 86400)
    (s, s + 86399)
  else if periodo = "7d" then (now - 7 * 86400, now)
  else if periodo = "30d" then (now - 30 * 86400, now)
  else if periodo = "mtd" then (monthStart now, now)
  else if periodo = "ytd" then (yearStart now, now)
  else (now - 7 * 86400, now)

/-- Claim C10: every period name outside the recognized set resolves to the
trailing-7-day window, identical to the window of the period 7d. -/
theorem periodo_fallback_is_7d (monthStart yearStart : Int → Int) (now : Int)
    (periodo : String)
    (h : periodo ∉ ["hoje", "ontem", "7d", "30d", "mtd", "ytd"]) :
    periodo_para_datas monthStart yearStart now periodo
      = periodo_para_datas monthStart yearStart now "7d" ∧
    periodo_para_datas monthStart yearStart now periodo
      = (now - 7 * 86400, now) := by
  simp only [List.mem_cons, List.mem_singleton, not_or] at h
  obtain ⟨h1, h2, h3, h4, h5, h6, -⟩ := h
  constructor <;>
    simp [periodo_para_datas, h1, h2, h3, h4, h5, h6]

/-- Witness for C10 at the concrete unrecognized period name "24h". -/
theorem periodo_fallback_is_7d_witness :
    "24h" ∉ ["hoje", "ontem", "7d", "30d", "mtd", "ytd"] ∧
    (periodo_para_datas (fun _ => 0) (fun _ => 0) 1000000 "24h"
       = periodo_para_datas (fun _ => 0) (fun _ => 0) 1000000 "7d" ∧
     periodo_para_datas (fun _ => 0) (fun _ => 0) 1000000 "24h"
       = (1000000 - 7 * 86400, 1000000)) :=
  ⟨by decide,
   periodo_fallback_is_7d (fun _ => 0) (fun _ => 0) 1000000 "24h" (by decide)⟩

/-! ## Masseiras KPI (calcular_totais_masseiras, calculations.py 127-190)

The SQL query pivots readings into one row per (device, timestamp) with the
latest OutputPower / OutputFrequency / CurrentMagnitude values; the embedding
takes the pivoted table (a list ordered by (device, ts), as produced by the
ORDER BY) as the store abstraction and models the WHERE timestamp BETWEEN
filter as a range filter on it.  Values come from the REAL column and are
rationals or NULL. -/

structure KpiRow where
  ts : Int
  dev : String
  power : Option ℚ
  freq : Option ℚ
  currMag : Option ℚ
deriving DecidableEq

structure KpiState where
  energia : List (String × ℚ)
  horas : List (String × ℚ)
  correnteMax : List (String × ℚ)
  lastTs : List (String × Int)
  lastPower : List (String × ℚ)
  lastFreq : List (String × ℚ)
deriving DecidableEq

def initKpiState : KpiState := ⟨[], [], [], [], [], []⟩

/-- One iteration of the KPI loop (calculations.py 156-176). -/
def kpiStep (st : KpiState) (r : KpiRow) : KpiState :=
  let st :=
    match r.currMag with
    | none => st
    | some cm =>
      match dictGet st.correnteMax r.dev with
      | none => { st with correnteMax := dictSet st.correnteMax r.dev cm }
      | some pm =>
        if cm > pm then { st with correnteMax := dictSet st.correnteMax r.dev cm }
        else st
  let st :=
    match dictGet st.lastTs r.dev with
    | none => st
    | some lt =>
      let dtH : ℚ := ((r.ts - lt : Int) : ℚ) / 3600
      let st :=
        match dictGet st.lastPower r.dev with
        | none => st
        | some pp =>
          { st with energia := dictSet st.energia r.dev
                      (dictGetD st.energia r.dev 0 + pp * dtH) }
      match dictGet st.lastFreq r.dev with
      | none => st
      | some pf =>
        if pf > 0 then
          { st with horas := dictSet st.horas r.dev
                      (dictGetD st.horas r.dev 0 + dtH) }
        else st
  let st := { st with lastTs := dictSet st.lastTs r.dev r.ts }
  let st :=
    match r.power with
    | none => st
    | some p => { st with lastPower := dictSet st.lastPower r.dev p }
  match r.freq with
  | none => st
  | some f => { st with lastFreq := dictSet st.lastFreq r.dev f }

structure MassKpi where
  energia_kWh : ℚ
  horas_operacao : ℚ
  corrente_max : Option ℚ
deriving DecidableEq

/-- Result assembly of calcular_totais_masseiras (calculations.py 180-190).
The Python set of devices is modelled in first-insertion order; both overview
paths build it the same way, so comparisons between them are unaffected. -/
def kpiAssemble (st : KpiState) : List (String × MassKpi) :=
  let devices := dedupKeys [] (st.energia.map Prod.fst ++ st.horas.map Prod.fst
                  ++ st.correnteMax.map Prod.fst)
  devices.map (fun dev =>
    (dev, { energia_kWh := pyRound 2 (dictGetD st.energia dev 0),
            horas_operacao := pyRound 2 (dictGetD st.horas dev 0),
            corrente_max := (dictGet st.correnteMax dev).map (pyRound 2) }))

def kpiAggregate (rows : List KpiRow) : List (String × MassKpi) :=
  kpiAssemble (rows.foldl kpiStep initKpiState)

/-- Range scan timestamp BETWEEN lo AND hi on the pivoted KPI table. -/
def fetchKpiRows (db : List KpiRow) (lo hi : Int) : List KpiRow :=
  db.filter (fun r => decide (lo ≤ r.ts) && decide (r.ts ≤ hi))

/-- Embedding of calcular_totais_masseiras for an explicit window. -/
def calcular_totais_masseiras (db : List KpiRow) (lo hi : Int) :
    List (String × MassKpi) :=
  kpiAggregate (fetchKpiRows db lo hi)

/-- Embedding of kpi_for_period (calculations.py 446-491): iterates the
wide-window rows and skips the ones outside the period inside the loop. -/
def kpi_for_period (rows : List KpiRow) (sEp eEp : Int) :
    List (String × MassKpi) :=
  kpiAssemble (rows.foldl
    (fun st r => if r.ts < sEp || r.ts > eEp then st else kpiStep st r)
    initKpiState)

/-! ## Daily energy rollup (sqlite_helper.py 317-437)

The SQL pipeline pivots readings of one device into rows (timestamp, day,
power, freq, curr_mag), computes LAG values over timestamp order, applies the
5-minute clip expression, and groups by calendar day.  The embedding works on
the pivoted per-device rows; theorems take the table sorted by strictly
increasing timestamp (GROUP BY timestamp makes timestamps unique and the
window function orders by timestamp).  The calendar day of a timestamp is
its UTC day number. -/

structure MRow where
  ts : Int
  power : Option ℚ
  freq : Option ℚ
  currMag : Option ℚ
deriving DecidableEq

/-- Calendar day (strftime %Y-%m-%d) of an epoch second, as a day number. -/
def dayOf (r : MRow) : Int := Int.fdiv r.ts 86400

/-- LAG over timestamp order: pair every row with its predecessor. -/
def pairsAux (prev : Option MRow) : List MRow → List (Option MRow × MRow)
  | [] => []
  | r :: rest => (prev, r) :: pairsAux (some r) rest

/-- Embedding of clip_5min_expr (sqlite_helper.py 317-328): elapsed hours
between a row and its LAG predecessor, zero when there is no predecessor or
when the gap exceeds 5 minutes. -/
def clipDtH (prev : Option MRow) (cur : MRow) : ℚ :=
  match prev with
  | none => 0
  | some p =>
    if ((cur.ts - p.ts : Int) : ℚ) / 3600 ≤ 5 / 60
    then ((cur.ts - p.ts : Int) : ℚ) / 3600
    else 0

/-- Energy summand: CASE WHEN prev_power IS NOT NULL THEN prev_power * dt_h ELSE 0 END. -/
def energiaContrib (pc : Option MRow × MRow) : ℚ :=
  match pc.1 with
  | none => 0
  | some p =>
    match p.power with
    | none => 0
    | some pw => pw * clipDtH pc.1 pc.2

/-- Hours summand: CASE WHEN prev_freq > 0 THEN dt_h ELSE 0 END (NULL > 0 is falsy). -/
def horasContrib (pc : Option MRow × MRow) : ℚ :=
  match pc.1 with
  | none => 0
  | some p =>
    match p.freq with
    | none => 0
    | some f => if 0 < f then clipDtH pc.1 pc.2 else 0

/-- Rows of a window whose current sample falls on a given day. -/
def dayRows (win : List MRow) (d : Int) : List MRow :=
  win.filter (fun r => dayOf r = d)

/-- LAG pairs of a window whose current sample falls on a given day. -/
def dayPairs (win : List MRow) (d : Int) : List (Option MRow × MRow) :=
  (pairsAux none win).filter (fun pc => dayOf pc.2 = d)

/-- Unrounded SUM feeding energia_kWh for one (day, device) group. -/
def rawEnergia (win : List MRow) (d : Int) : ℚ :=
  ((dayPairs win d).map energiaContrib).sum

/-- Unrounded SUM feeding horas_operacao for one (day, device) group. -/
def rawHoras (win : List MRow) (d : Int) : ℚ :=
  ((dayPairs win d).map horasContrib).sum

/-- SQL MAX aggregation over a nullable column: NULL values are ignored. -/
def omax {α : Type} [LinearOrder α] : Option α → Option α → Option α
  | none, b => b
  | some x, none => some x
  | some x, some y => some (max x y)

/-- SQL MIN aggregation over a nullable column: NULL values are ignored. -/
def omin {α : Type} [LinearOrder α] : Option α → Option α → Option α
  | none, b => b
  | some x, none => some x
  | some x, some y => some (min x y)

/-- Fold form of SQL MAX over a selected column. -/
def ofoldMax {α β : Type} [LinearOrder α] (f : β → Option α) (l : List β) :
    Option α :=
  l.foldl (fun a r => omax a (f r)) none

/-- Fold form of SQL MIN over a selected column. -/
def ofoldMin {α β : Type} [LinearOrder α] (f : β → Option α) (l : List β) :
    Option α :=
  l.foldl (fun a r => omin a (f r)) none

def correnteOf (win : List MRow) (d : Int) : Option ℚ :=
  ofoldMax (fun r => r.currMag) (dayRows win d)

def firstTsOf (win : List MRow) (d : Int) : Option Int :=
  ofoldMin (fun r => some r.ts) (dayRows win d)

def lastTsOf (win : List MRow) (d : Int) : Option Int :=
  ofoldMax (fun r => some r.ts) (dayRows win d)

/-- One output row of the rollup query for a (day, device) group. -/
structure DayRow where
  day : Int
  energia : ℚ
  horas : ℚ
  corrente : Option ℚ
  firstTs : Option Int
  lastTs : Option Int
  samples : Int
deriving DecidableEq

def dayRollup (win : List MRow) (d : Int) : DayRow :=
  { day := d,
    energia := sqlRound 6 (rawEnergia win d),
    horas := sqlRound 6 (rawHoras win d),
    corrente := correnteOf win d,
    firstTs := firstTsOf win d,
    lastTs := lastTsOf win d,
    samples := (dayRows win d).length }

/-- Window scan of the rollup query: timestamp BETWEEN lo AND hi (closed). -/
def rollupWin (db : List MRow) (lo hi : Int) : List MRow :=
  db.filter (fun r => decide (lo ≤ r.ts) && decide (r.ts ≤ hi))

/-- Embedding of the per-device rollup query of update_masseira_daily
(sqlite_helper.py 380-425): one DayRow per day present in the window. -/
def rollupQuery (db : List MRow) (lo hi : Int) : List DayRow :=
  let win := rollupWin db lo hi
  (dedupKeys [] (win.map dayOf)).map (dayRollup win)

/-! ### The masseira_daily store and its upsert (sqlite_helper.py 331-357) -/

structure StoreRow where
  energia : Option ℚ
  horas : Option ℚ
  corrente : Option ℚ
  firstTs : Option Int
  lastTs : Option Int
  samples : Option Int
deriving DecidableEq

/-- The masseira_daily rows of one device, keyed by day. -/
def MStore : Type := Int → Option StoreRow

def emptyMStore : MStore := fun _ => none

/-- Plain INSERT branch of the upsert. -/
def insertRowOf (r : DayRow) : StoreRow :=
  { energia := some r.energia,
    horas := some r.horas,
    corrente := r.corrente,
    firstTs := r.firstTs,
    lastTs := r.lastTs,
    samples := some r.samples }

/-- corrente_max merge: null-safe maximum (CASE chain in the upsert). -/
def mergeCorr (old new : Option ℚ) : Option ℚ :=
  match old, new with
  | none, n => n
  | some o, none => some o
  | some o, some n => if n > o then some n else some o

/-- last_ts merge: null-safe maximum (CASE chain in the upsert). -/
def mergeLast (old new : Option Int) : Option Int :=
  match old, new with
  | none, n => n
  | some o, none => some o
  | some o, some n => if n > o then some n else some o

/-- first_ts merge: COALESCE(masseira_daily.first_ts, excluded.first_ts). -/
def mergeFirst (old new : Option Int) : Option Int :=
  match old with
  | some o => some o
  | none => new

/-- ON CONFLICT DO UPDATE branch of the upsert. -/
def mergeRow (old : StoreRow) (r : DayRow) : StoreRow :=
  { energia := some (old.energia.getD 0 + r.energia),
    horas := some (old.horas.getD 0 + r.horas),
    corrente := mergeCorr old.corrente r.corrente,
    firstTs := mergeFirst old.firstTs r.firstTs,
    lastTs := mergeLast old.lastTs r.lastTs,
    samples := some (old.samples.getD 0 + r.samples) }

/-- Embedding of upsert_masseira_daily_row for one device store. -/
def upsert_masseira_daily_row (st : MStore) (r : DayRow) : MStore :=
  fun d =>
    if d = r.day then
      some (match st r.day with
            | none => insertRowOf r
            | some old => mergeRow old r)
    else st d

def applyRows (st : MStore) (rows : List DayRow) : MStore :=
  rows.foldl upsert_masseira_daily_row st

/-! ## Dosagens persistence (sqlite_helper.py 245-310) -/

/-- One operation record as emitted by the detector.  The Python record keys
the start instant by the ISO string of the rise timestamp; ISO strings of the
fixed format are in order-preserving bijection with epoch seconds, so horario
is modelled as an optional epoch (None models a missing key, which
insert_dosagens skips). -/
structure OpRec where
  horario : Option Int
  qntSolicitada : Option ℚ
  pesoInicio : Option ℚ
  pesoFim : Option ℚ
deriving DecidableEq

/-- Detector output: device ↦ (operations to Masseira_1, to Masseira_2). -/
abbrev OpsDict := List (String × (List OpRec × List OpRec))

/-- One row of the dosagens table. -/
structure DRow where
  tsStart : Int
  device : String
  tipo : String
  destino : String
  qntSolicitada : Option ℚ
  pesoInicio : Option ℚ
  pesoFim : Option ℚ
  pesoReal : ℚ
deriving DecidableEq

/-- Iteration order of insert_dosagens: devices in dict order, then the two
destinations in their creation order, then operations in list order. -/
def flatOps (d : OpsDict) : List (String × String × OpRec) :=
  d.flatMap (fun p =>
    p.2.1.map (fun op => (p.1, "Masseira_1", op))
      ++ p.2.2.map (fun op => (p.1, "Masseira_2", op)))

/-- The existence check of insert_dosagens: SELECT COUNT(*) FROM dosagens
WHERE device=? AND timestamp_start=? (note: the runtime check is on the pair
(device, timestamp_start) only, coarser than the table's 4-column UNIQUE). -/
def keyMatch (dev : String) (ts : Int) (row : DRow) : Bool :=
  row.device = dev && row.tsStart = ts

/-- Body of the insertion loop of insert_dosagens (sqlite_helper.py 250-284):
skip when the start key is missing, skip when a row with the same
(device, timestamp_start) already exists, otherwise insert and count.
peso_real is float(peso_inicio or 0) - float(peso_fim or 0). -/
def dosagensStep (tipo : String) (acc : List DRow × Nat)
    (x : String × String × OpRec) : List DRow × Nat :=
  match x.2.2.horario with
  | none => acc
  | some ts =>
    if acc.1.any (keyMatch x.1 ts) then acc
    else
      (acc.1 ++ [{ tsStart := ts, device := x.1, tipo := tipo, destino := x.2.1,
                   qntSolicitada := x.2.2.qntSolicitada,
                   pesoInicio := x.2.2.pesoInicio,
                   pesoFim := x.2.2.pesoFim,
                   pesoReal := x.2.2.pesoInicio.getD 0 - x.2.2.pesoFim.getD 0 }],
       acc.2 + 1)

/-- Embedding of insert_dosagens: returns the new table and the insert count. -/
def insert_dosagens (store : List DRow) (ops : OpsDict) (tipo : String) :
    List DRow × Nat :=
  (flatOps ops).foldl (dosagensStep tipo) (store, 0)

/-! ## Watermarks (meta table) and the two batch jobs -/

/-- The meta table: job key ↦ last processed timestamp. -/
def MetaT : Type := String → Option Int

def setMeta (m : MetaT) (k : String) (v : Int) : MetaT :=
  fun x => if x = k then some v else m x

/-- The message of the Python TypeError raised when a function defined with
two positional parameters is called with three positional arguments. -/
def arityError : String :=
  "TypeError: calcula_operacoes_descarga_tanques() takes 2 positional arguments but 3 were given"

/-- The detector call as written at sqlite_helper.py 300-301:
calcula_operacoes_descarga_tanques(start_ts, end_ts, tipo) passes three
positional arguments, but the only definition of that function
(calculations.py 196) takes two (periodo, tipo).  Python raises TypeError
at the call itself, before the detector body runs. -/
def detectorCall3 (_startTs _endTs : Int) (_tipo : String) :
    Except String OpsDict :=
  Except.error arityError

/-- Embedding of update_dosagens_table (sqlite_helper.py 293-310): read the
watermark, call the detector for both categories over [last watermark, now],
insert, then set the watermark to now (line 306).  The detector calls raise
TypeError (three arguments against a two-parameter function), so execution
never gets past line 300: the error propagates (the scheduler catches it
outside) and neither the store nor the watermark changes. -/
def update_dosagens_table (store : List DRow) (meta : MetaT) (now : Int) :
    Except String (List DRow × MetaT × Nat) := do
  let start := (meta "last_ops_ts").getD 0
  let opsResina ← detectorCall3 start now "Resina"
  let opsAgua ← detectorCall3 start now "Agua"
  let r1 := insert_dosagens store opsResina "Resina"
  let r2 := insert_dosagens r1.1 opsAgua "Agua"
  pure (r2.1, setMeta meta "last_ops_ts" now, r1.2 + r2.2)

/-- Embedding of the per-device body of update_masseira_daily
(sqlite_helper.py 374-432): scan [watermark, now], upsert every returned
(day, device) row, and advance the watermark only when the query returned
at least one row (the source guards set_meta_value with if rows:). -/
def update_masseira_daily_dev (db : List MRow) (meta : MetaT) (key : String)
    (st : MStore) (now : Int) : MStore × MetaT :=
  let start := (meta key).getD 0
  let rows := rollupQuery db start now
  let st2 := applyRows st rows
  if rows.isEmpty then (st2, meta) else (st2, setMeta meta key now)

/-! ## Claim C1: 5-minute gap clipping -/

/-- Counterexample to claim C1 as stated: the per-period KPI computation
calcular_totais_masseiras has no gap clipping at all.  Two samples of
Masseira_1 ten minutes (600 s) apart with power = 50 and frequency = 50
contribute 50 * (600/3600) = 25/3 kWh (rounded to 8.33) and 1/6 h of
operating time (rounded to 0.17), both non-zero. -/
theorem kpi_gap_not_clipped_counterexample :
    dictGet (calcular_totais_masseiras
        [{ ts := 0, dev := "Masseira_1", power := some 50, freq := some 50,
           currMag := none },
         { ts := 600, dev := "Masseira_1", power := some 50, freq := some 50,
           currMag := none }] 0 1000) "Masseira_1"
      = some { energia_kWh := 833/100, horas_operacao := 17/100,
               corrente_max := none } ∧
    (833/100 : ℚ) ≠ 0 ∧ (17/100 : ℚ) ≠ 0 := by
  refine ⟨?_, by norm_num, by norm_num⟩
  simp +decide only [calcular_totais_masseiras, kpiAggregate, fetchKpiRows,
    kpiAssemble, kpiStep, initKpiState, dictGet, dictGetD, dictSet, dedupKeys,
    List.find?, List.foldl, List.filter, List.map, List.any, List.append_nil,
    List.nil_append, List.cons_append]
  norm_num [pyRound, roundHalfEvenZ]

/-- Claim C1 amended: in the daily rollup batch (update_masseira_daily) a
pair of consecutive samples more than 5 minutes apart contributes zero
energy and zero operating hours, whatever the power and frequency values;
consequently a window all of whose consecutive gaps exceed 5 minutes
integrates to zero energy and zero hours for every day.  (The per-period
KPI path does not clip; see the counterexample.) -/
theorem rollup_clips_gaps (prev cur : MRow) (win : List MRow) (d : Int)
    (hgap : cur.ts - prev.ts > 300)
    (hchain : List.Chain' (fun a b => b.ts - a.ts > 300) win) :
    clipDtH (some prev) cur = 0 ∧
    energiaContrib (some prev, cur) = 0 ∧
    horasContrib (some prev, cur) = 0 ∧
    rawEnergia win d = 0 ∧ rawHoras win d = 0 := by
  have hclip : ∀ p c : MRow, c.ts - p.ts > 300 → clipDtH (some p) c = 0 := by
    intro p c h
    have h1 : ((c.ts - p.ts : Int) : ℚ) > 300 := by exact_mod_cast h
    have h2 : ¬ ((c.ts - p.ts : Int) : ℚ) / 3600 ≤ 5 / 60 := by
      rw [not_le]
      have h60 : (5 : ℚ) / 60 = 300 / 3600 := by norm_num
      rw [h60, div_lt_div_iff_of_pos_right (by norm_num : (0:ℚ) < 3600)]
      exact h1
    simp only [clipDtH, h2, if_false]
  have hE : ∀ p c : MRow, c.ts - p.ts > 300 → energiaContrib (some p, c) = 0 := by
    intro p c h
    simp only [energiaContrib]
    cases p.power <;> simp [hclip p c h]
  have hH : ∀ p c : MRow, c.ts - p.ts > 300 → horasContrib (some p, c) = 0 := by
    intro p c h
    simp only [horasContrib]
    cases hf : p.freq with
    | none => rfl
    | some f => by_cases h0 : 0 < f <;> simp [h0, hclip p c h]
  have hmem : ∀ pr c, (some pr, c) ∈ pairsAux none win → c.ts - pr.ts > 300 := by
    have key : ∀ (l : List MRow) (p0 : Option MRow),
        List.Chain' (fun a b => b.ts - a.ts > 300) l →
        (∀ pr, p0 = some pr → ∀ c, l.head? = some c → c.ts - pr.ts > 300) →
        ∀ pr c, (some pr, c) ∈ pairsAux p0 l → c.ts - pr.ts > 300 := by
      intro l
      induction l with
      | nil => intro p0 _ _ pr c hm; simp [pairsAux] at hm
      | cons h t ih =>
        intro p0 hch hhd pr c hm
        simp only [pairsAux, List.mem_cons] at hm
        rcases hm with heq | hm
        · rw [Prod.mk.injEq] at heq
          obtain ⟨h1, h2⟩ := heq
          subst h2
          exact hhd pr h1.symm c rfl
        · refine ih (some h) (List.Chain'.tail hch) ?_ pr c hm
          intro pr' hpr' c' hc'
          have hpr2 : h = pr' := by injection hpr'
          subst hpr2
          cases t with
          | nil => simp at hc'
          | cons c2 t2 =>
            have hc2 : c' = c2 := by
              have := hc'
              simp only [List.head?_cons, Option.some.injEq] at this
              exact this.symm
            subst hc2
            exact (List.chain'_cons.mp hch).1
    intro pr c hm
    exact key win none hchain (by intro pr' h; simp at h) pr c hm
  refine ⟨hclip prev cur hgap, hE prev cur hgap, hH prev cur hgap, ?_, ?_⟩
  · apply List.sum_eq_zero
    intro x hx
    simp only [List.mem_map] at hx
    obtain ⟨pc, hpc, hval⟩ := hx
    have hpc2 := List.mem_of_mem_filter hpc
    subst hval
    cases pc with
    | mk pr c =>
      cases pr with
      | none => rfl
      | some pr' => exact hE pr' c (hmem pr' c hpc2)
  · apply List.sum_eq_zero
    intro x hx
    simp only [List.mem_map] at hx
    obtain ⟨pc, hpc, hval⟩ := hx
    have hpc2 := List.mem_of_mem_filter hpc
    subst hval
    cases pc with
    | mk pr c =>
      cases pr with
      | none => rfl
      | some pr' => exact hH pr' c (hmem pr' c hpc2)

/-- Witness for the amended C1 at a concrete gap of 600 seconds. -/
theorem rollup_clips_gaps_witness :
    (({ ts := 600, power := some 50, freq := some 50, currMag := none } : MRow).ts
       - ({ ts := 0, power := some 50, freq := some 50, currMag := none } : MRow).ts > 300 ∧
     List.Chain' (fun a b : MRow => b.ts - a.ts > 300)
       [{ ts := 0, power := some 50, freq := some 50, currMag := none },
        { ts := 600, power := some 50, freq := some 50, currMag := none }]) ∧
    (clipDtH (some { ts := 0, power := some 50, freq := some 50, currMag := none })
        { ts := 600, power := some 50, freq := some 50, currMag := none } = 0 ∧
     energiaContrib (some { ts := 0, power := some 50, freq := some 50, currMag := none },
        { ts := 600, power := some 50, freq := some 50, currMag := none }) = 0 ∧
     horasContrib (some { ts := 0, power := some 50, freq := some 50, currMag := none },
        { ts := 600, power := some 50, freq := some 50, currMag := none }) = 0 ∧
     rawEnergia
       [{ ts := 0, power := some 50, freq := some 50, currMag := none },
        { ts := 600, power := some 50, freq := some 50, currMag := none }] 0 = 0 ∧
     rawHoras
       [{ ts := 0, power := some 50, freq := some 50, currMag := none },
        { ts := 600, power := some 50, freq := some 50, currMag := none }] 0 = 0) :=
  ⟨⟨by decide, List.chain'_cons.mpr ⟨by decide, List.chain'_singleton _⟩⟩,
   rollup_clips_gaps _ _ _ 0 (by decide)
     (List.chain'_cons.mpr ⟨by decide, List.chain'_singleton _⟩)⟩

/-! ## Claim C7: first_ts merge in the daily-rollup upsert -/

/-- Counterexample to claim C7 as stated: the upsert merges first_ts with
COALESCE(existing, incoming), which keeps the existing value even when the
incoming one is smaller.  Submitting first_ts = 5 and then first_ts = 3 for
the same (date, device) leaves the store at 5, later than the earliest
submitted value 3, so the merged firstTs is not the minimum. -/
theorem firstTs_merge_counterexample :
    ((applyRows emptyMStore
        [{ day := 0, energia := 1, horas := 1, corrente := none,
           firstTs := some 5, lastTs := some 5, samples := 1 },
         { day := 0, energia := 1, horas := 1, corrente := none,
           firstTs := some 3, lastTs := some 6, samples := 1 }]) 0).map
        StoreRow.firstTs
      = some (some 5) ∧ (3:Int) < 5 ∧
    some (some (5:Int)) ≠ some (some (min (5:Int) 3)) := by
  refine ⟨?_, by decide, by decide⟩
  decide

/-- Helper for C7: once a row exists with a non-null first_ts, any sequence
of further upserts keeps that first_ts unchanged. -/
theorem applyRows_keeps_firstTs (rows : List DayRow) (st : MStore) (d : Int)
    (f : Int) (h : (st d).bind StoreRow.firstTs = some f) :
    ((applyRows st rows) d).bind StoreRow.firstTs = some f := by
  induction rows generalizing st with
  | nil => exact h
  | cons r rest ih =>
    apply ih
    by_cases hd : d = r.day
    · cases hst : st r.day with
      | none =>
        rw [hd, hst] at h
        simp [Option.bind] at h
      | some old =>
        rw [hd, hst] at h
        simp only [Option.bind] at h
        simp [upsert_masseira_daily_row, hd, hst, mergeRow, mergeFirst, h,
          Option.bind]
    · simpa [upsert_masseira_daily_row, hd] using h

/-- Claim C7 amended: the merged firstTs is COALESCE(existing, incoming) -
the existing value is kept whenever it is non-null and the incoming value is
adopted only into a null slot.  Under in-order submission (every later
submitted first_ts at least the first one, the watermark discipline), the
store ends at the first submitted value, which is then the minimum of all
submitted values; with out-of-order submissions the minimum is not taken
(see the counterexample). -/
theorem firstTs_merge_coalesce (old : StoreRow) (r r0 : DayRow)
    (rest : List DayRow) (f0 : Int)
    (h0 : r0.firstTs = some f0)
    (hord : ∀ q ∈ rest, ∀ v : Int, q.firstTs = some v → f0 ≤ v) :
    ((mergeRow old r).firstTs
      = match old.firstTs with
        | some x => some x
        | none => r.firstTs) ∧
    ((applyRows emptyMStore (r0 :: rest)) r0.day).bind StoreRow.firstTs
      = some f0 ∧
    ∀ q ∈ r0 :: rest, ∀ v : Int, q.firstTs = some v → f0 ≤ v := by
  refine ⟨rfl, ?_, ?_⟩
  · show ((applyRows (upsert_masseira_daily_row emptyMStore r0) rest)
        r0.day).bind StoreRow.firstTs = some f0
    apply applyRows_keeps_firstTs
    simp [upsert_masseira_daily_row, emptyMStore, insertRowOf, h0, Option.bind]
  · intro q hq v hv
    rcases List.mem_cons.mp hq with hq | hq
    · subst hq
      rw [h0] at hv
      injection hv with hv
      omega
    · exact hord q hq v hv

/-- Witness for the amended C7: a concrete in-order pair of submissions. -/
theorem firstTs_merge_coalesce_witness :
    (({ day := 0, energia := 1, horas := 1, corrente := none,
        firstTs := some 3, lastTs := some 3, samples := 1 } : DayRow).firstTs
        = some 3 ∧
     (∀ q ∈ [({ day := 0, energia := 2, horas := 1, corrente := none,
                firstTs := some 7, lastTs := some 8, samples := 1 } : DayRow)],
        ∀ v : Int, q.firstTs = some v → (3:Int) ≤ v)) ∧
    (((mergeRow
        { energia := some 1, horas := some 1, corrente := none,
          firstTs := some 4, lastTs := some 4, samples := some 1 }
        { day := 0, energia := 1, horas := 1, corrente := none,
          firstTs := some 9, lastTs := some 9, samples := 1 }).firstTs
       = match (some (4:Int) : Option Int) with
         | some x => some x
         | none => some (9:Int)) ∧
     ((applyRows emptyMStore
        [{ day := 0, energia := 1, horas := 1, corrente := none,
           firstTs := some 3, lastTs := some 3, samples := 1 },
         { day := 0, energia := 2, horas := 1, corrente := none,
           firstTs := some 7, lastTs := some 8, samples := 1 }])
        (0:Int)).bind StoreRow.firstTs = some 3 ∧
     ∀ q ∈ [({ day := 0, energia := 1, horas := 1, corrente := none,
               firstTs := some 3, lastTs := some 3, samples := 1 } : DayRow),
            { day := 0, energia := 2, horas := 1, corrente := none,
              firstTs := some 7, lastTs := some 8, samples := 1 }],
        ∀ v : Int, q.firstTs = some v → (3:Int) ≤ v) :=
  ⟨⟨rfl, by decide⟩,
   firstTs_merge_coalesce
     { energia := some 1, horas := some 1, corrente := none,
       firstTs := some 4, lastTs := some 4, samples := some 1 }
     { day := 0, energia := 1, horas := 1, corrente := none,
       firstTs := some 9, lastTs := some 9, samples := 1 }
     { day := 0, energia := 1, horas := 1, corrente := none,
       firstTs := some 3, lastTs := some 3, samples := 1 }
     [{ day := 0, energia := 2, horas := 1, corrente := none,
        firstTs := some 7, lastTs := some 8, samples := 1 }]
     3 rfl (by decide)⟩

/-! ## Claim C3: watermark advancement of the two batch jobs -/

/-- Counterexample to claim C3 as stated, on both jobs: when the rollup
query returns no rows (empty readings for the window),
update_masseira_daily keeps the device watermark at its old value 50
instead of advancing it to now = 100; and a concrete update_dosagens_table
attempt raises the TypeError of its three-argument detector call instead
of finishing and setting last_ops_ts. -/
theorem masseira_watermark_stalls_counterexample :
    (update_masseira_daily_dev []
        (fun k => if k = "last_energy_ts_Masseira_1" then some 50 else none)
        "last_energy_ts_Masseira_1" emptyMStore 100).2 "last_energy_ts_Masseira_1"
      = some 50 ∧ some (50:Int) ≠ some (100:Int) ∧
    update_dosagens_table [] (fun _ => none) 100
      = Except.error arityError := by
  refine ⟨rfl, by decide, rfl⟩

/-- Claim C3 amended: neither job advances its watermark at the end of
every batch attempt.  update_dosagens_table never reaches its watermark
write at sqlite_helper.py 306: the detector call at line 300 passes three
positional arguments to the two-parameter calcula_operacoes_descarga_tanques,
so every run raises TypeError first and last_ops_ts (and the dosagens
store) stays untouched.  update_masseira_daily advances a device watermark
only when the batch produced at least one row (the if rows: guard at lines
431-432); with zero rows the old watermark is kept. -/
theorem watermark_advance (store : List DRow) (meta : MetaT) (now : Int)
    (db : List MRow) (key : String) (st : MStore) :
    update_dosagens_table store meta now = Except.error arityError ∧
    ((update_masseira_daily_dev db meta key st now).2 key
      = if (rollupQuery db ((meta key).getD 0) now).isEmpty then meta key
        else some now) := by
  constructor
  · rfl
  · simp only [update_masseira_daily_dev]
    by_cases h : (rollupQuery db ((meta key).getD 0) now).isEmpty
    · simp [h]
    · simp [h, setMeta]

/-! ## Claim C2: idempotence of the dosagens insert -/

/-- Number of dosagens rows carrying a given (device, timestamp_start) key. -/
def countKey (s : List DRow) (dev : String) (ts : Int) : Nat :=
  (s.filter (keyMatch dev ts)).length

theorem countKey_zero_any (s : List DRow) (dev : String) (ts : Int)
    (h : countKey s dev ts = 0) : s.any (keyMatch dev ts) = false := by
  rw [← Bool.not_eq_true]
  intro hany
  obtain ⟨row, hm, hk⟩ := List.any_eq_true.mp hany
  have : row ∈ s.filter (keyMatch dev ts) := List.mem_filter.mpr ⟨hm, hk⟩
  have hlen : 0 < (s.filter (keyMatch dev ts)).length :=
    List.length_pos.mpr (List.ne_nil_of_mem this)
  rw [countKey] at h
  omega

/-- Rows already in the store survive the insertion loop. -/
theorem dosagens_store_mono (tipo : String)
    (l : List (String × String × OpRec)) (acc : List DRow × Nat) (row : DRow)
    (h : row ∈ acc.1) : row ∈ (l.foldl (dosagensStep tipo) acc).1 := by
  induction l generalizing acc with
  | nil => exact h
  | cons x rest ih =>
    apply ih
    simp only [dosagensStep]
    cases x.2.2.horario with
    | none => exact h
    | some t =>
      by_cases hany : acc.1.any (keyMatch x.1 t)
      · simpa [hany] using h
      · simp only [hany, if_false]
        exact List.mem_append_left _ h

/-- After the insertion loop has processed an operation with a start key,
some row with that (device, timestamp_start) key is in the store. -/
theorem dosagens_key_present (tipo : String)
    (l : List (String × String × OpRec)) (acc : List DRow × Nat)
    (x : String × String × OpRec) (hx : x ∈ l) (t : Int)
    (ht : x.2.2.horario = some t) :
    ∃ row ∈ (l.foldl (dosagensStep tipo) acc).1, keyMatch x.1 t row = true := by
  induction l generalizing acc with
  | nil => exact absurd hx (List.not_mem_nil x)
  | cons y rest ih =>
    rcases List.mem_cons.mp hx with hxy | hxr
    · subst hxy
      simp only [List.foldl_cons, dosagensStep, ht]
      by_cases hany : acc.1.any (keyMatch x.1 t)
      · obtain ⟨row, hm, hk⟩ := List.any_eq_true.mp hany
        exact ⟨row, dosagens_store_mono tipo rest _ row (by simpa [hany] using hm),
          hk⟩
      · simp only [hany, if_false]
        refine ⟨_, dosagens_store_mono tipo rest _ _
          (List.mem_append_right _ (List.mem_singleton_self _)), ?_⟩
        simp [keyMatch]
    · exact ih _ hxr

/-- When every operation key is already present, the insertion loop is the
identity and inserts nothing. -/
theorem dosagens_all_present_skip (tipo : String)
    (l : List (String × String × OpRec)) (acc : List DRow × Nat)
    (h : ∀ x ∈ l, ∀ t, x.2.2.horario = some t →
           ∃ row ∈ acc.1, keyMatch x.1 t row = true) :
    l.foldl (dosagensStep tipo) acc = acc := by
  induction l with
  | nil => rfl
  | cons y rest ih =>
    have hstep : dosagensStep tipo acc y = acc := by
      simp only [dosagensStep]
      cases hy : y.2.2.horario with
      | none => rfl
      | some t =>
        obtain ⟨row, hm, hk⟩ := h y (List.mem_cons_self y rest) t hy
        have hany : acc.1.any (keyMatch y.1 t) = true :=
          List.any_eq_true.mpr ⟨row, hm, hk⟩
        simp [hany]
    rw [List.foldl_cons, hstep]
    exact ih (fun x hx => h x (List.mem_cons_of_mem y hx))

/-- Processing operations none of which carries a given key leaves the
number of rows with that key unchanged. -/
theorem dosagens_count_unchanged (tipo : String)
    (l : List (String × String × OpRec)) (acc : List DRow × Nat)
    (dev : String) (ts : Int)
    (h : ∀ y ∈ l, ∀ ty, y.2.2.horario = some ty → ¬(y.1 = dev ∧ ty = ts)) :
    countKey (l.foldl (dosagensStep tipo) acc).1 dev ts
      = countKey acc.1 dev ts := by
  induction l generalizing acc with
  | nil => rfl
  | cons y rest ih =>
    rw [List.foldl_cons,
      ih _ (fun z hz => h z (List.mem_cons_of_mem y hz))]
    simp only [dosagensStep]
    cases hy : y.2.2.horario with
    | none => rfl
    | some ty =>
      by_cases hany : acc.1.any (keyMatch y.1 ty)
      · simp [hany]
      · simp only [hany, if_false, countKey, List.filter_append,
          List.length_append]
        have hkm : keyMatch dev ts
            { tsStart := ty, device := y.1, tipo := tipo, destino := y.2.1,
              qntSolicitada := y.2.2.qntSolicitada,
              pesoInicio := y.2.2.pesoInicio, pesoFim := y.2.2.pesoFim,
              pesoReal := y.2.2.pesoInicio.getD 0 - y.2.2.pesoFim.getD 0 }
            = false := by
          have hne := h y (List.mem_cons_self y rest) ty hy
          simp only [keyMatch, Bool.and_eq_false_iff]
          by_cases hd : y.1 = dev
          · right
            have : ¬ ty = ts := fun hts => hne ⟨hd, hts⟩
            simpa using this
          · left
            simpa using hd
        simp [List.filter_cons, hkm, countKey]

/-- Claim C2: re-running the dosagens persistence over the same detected
operations is idempotent - the second run changes nothing and inserts zero
rows - and, when the detected keys are pairwise distinct and not yet in the
store, the final store holds each operation exactly once under its
(device, start) key.  (The runtime dedup check is on (device,
timestamp_start); the table's UNIQUE(device, timestamp_start, tipo, destino)
is implied by it.) -/
theorem insert_dosagens_idempotent (store : List DRow) (ops : OpsDict)
    (tipo : String)
    (hdist : (flatOps ops).Pairwise (fun a b => ∀ ta tb,
        a.2.2.horario = some ta → b.2.2.horario = some tb →
        ¬(a.1 = b.1 ∧ ta = tb)))
    (hfresh : ∀ x ∈ flatOps ops, ∀ t, x.2.2.horario = some t →
        countKey store x.1 t = 0) :
    insert_dosagens (insert_dosagens store ops tipo).1 ops tipo
      = ((insert_dosagens store ops tipo).1, 0) ∧
    ∀ x ∈ flatOps ops, ∀ t, x.2.2.horario = some t →
      countKey (insert_dosagens store ops tipo).1 x.1 t = 1 := by
  constructor
  · apply dosagens_all_present_skip
    intro x hx t ht
    exact dosagens_key_present tipo (flatOps ops) (store, 0) x hx t ht
  · intro x hx t ht
    obtain ⟨pre, post, hflat⟩ := List.append_of_mem hx
    rw [insert_dosagens, hflat, List.foldl_append, List.foldl_cons]
    have hpairs := hflat ▸ hdist
    obtain ⟨hpre, hxpost, hcross⟩ := List.pairwise_append.mp hpairs
    obtain ⟨hxp, hpost⟩ := List.pairwise_cons.mp hxpost
    have hcount0 : countKey ((pre.foldl (dosagensStep tipo) (store, 0)).1) x.1 t
        = 0 := by
      rw [dosagens_count_unchanged tipo pre (store, 0) x.1 t ?_]
      · exact hfresh x hx t ht
      · intro y hy ty hty hc
        exact hcross y hy x (List.mem_cons_self x post) ty t hty ht
          ⟨hc.1, hc.2⟩
    have hany := countKey_zero_any _ x.1 t hcount0
    rw [dosagens_count_unchanged tipo post _ x.1 t ?_]
    · have hstep : dosagensStep tipo (pre.foldl (dosagensStep tipo) (store, 0)) x
          = ((pre.foldl (dosagensStep tipo) (store, 0)).1 ++
              [{ tsStart := t, device := x.1, tipo := tipo, destino := x.2.1,
                 qntSolicitada := x.2.2.qntSolicitada,
                 pesoInicio := x.2.2.pesoInicio, pesoFim := x.2.2.pesoFim,
                 pesoReal := x.2.2.pesoInicio.getD 0 - x.2.2.pesoFim.getD 0 }],
             (pre.foldl (dosagensStep tipo) (store, 0)).2 + 1) := by
        simp [dosagensStep, ht, hany]
      rw [hstep]
      simp only [countKey, List.filter_append, List.length_append]
      rw [countKey] at hcount0
      rw [hcount0]
      simp [List.filter_cons, keyMatch]
    · intro y hy ty hty hc
      exact hxp y hy t ty ht hty ⟨hc.1.symm, hc.2.symm⟩

/-- Witness for C2 at a concrete single detected operation. -/
theorem insert_dosagens_idempotent_witness :
    ((flatOps [("Tanque_1_Resina",
        ([{ horario := some 10, qntSolicitada := some 50,
            pesoInicio := some 100, pesoFim := some 90 }], []))]).Pairwise
       (fun a b => ∀ ta tb, a.2.2.horario = some ta →
          b.2.2.horario = some tb → ¬(a.1 = b.1 ∧ ta = tb)) ∧
     (∀ x ∈ flatOps [("Tanque_1_Resina",
        ([{ horario := some 10, qntSolicitada := some 50,
            pesoInicio := some 100, pesoFim := some 90 }], []))],
        ∀ t : Int, x.2.2.horario = some t → countKey [] x.1 t = 0)) ∧
    (insert_dosagens
        (insert_dosagens [] [("Tanque_1_Resina",
          ([{ horario := some 10, qntSolicitada := some 50,
              pesoInicio := some 100, pesoFim := some 90 }], []))] "Resina").1
        [("Tanque_1_Resina",
          ([{ horario := some 10, qntSolicitada := some 50,
              pesoInicio := some 100, pesoFim := some 90 }], []))] "Resina"
      = ((insert_dosagens [] [("Tanque_1_Resina",
          ([{ horario := some 10, qntSolicitada := some 50,
              pesoInicio := some 100, pesoFim := some 90 }], []))] "Resina").1,
         0) ∧
     ∀ x ∈ flatOps [("Tanque_1_Resina",
        ([{ horario := some 10, qntSolicitada := some 50,
            pesoInicio := some 100, pesoFim := some 90 }], []))],
       ∀ t : Int, x.2.2.horario = some t →
         countKey (insert_dosagens [] [("Tanque_1_Resina",
           ([{ horario := some 10, qntSolicitada := some 50,
               pesoInicio := some 100, pesoFim := some 90 }], []))] "Resina").1
           x.1 t = 1) :=
  ⟨⟨by simp [flatOps], by intro x hx t ht; simp [countKey]⟩,
   insert_dosagens_idempotent [] _ "Resina"
     (by simp [flatOps])
     (by intro x hx t ht; simp [countKey])⟩

/-! ## Operation detector (calcula_operacoes_descarga_tanques,
calculations.py 196-317)

A reading value is REAL, NULL, or - the SQLite value column being dynamically
typed - non-numeric text; int(x) and float(x) raise ValueError on the text
case, modelled with Except.  The detector consumes pivoted rows (one per
(device, timestamp), ordered by (device, ts)); the SQL HAVING clause keeps
only rows whose OpAndamento, BotaoLiga and Peso cells are non-NULL. -/

inductive SVal where
  | null : SVal
  | num : ℚ → SVal
  | text : String → SVal
deriving DecidableEq

/-- Python int() truncates a float toward zero. -/
def ratTrunc (q : ℚ) : Int := if 0 ≤ q then ⌊q⌋ else ⌈q⌉

/-- op = None if x is None else int(x). -/
def toOptIntPy : SVal → Except String (Option Int)
  | SVal.null => Except.ok none
  | SVal.num q => Except.ok (some (ratTrunc q))
  | SVal.text s => Except.error s

/-- d = 0 if x is None else int(x). -/
def toIntDefPy : SVal → Except String Int
  | SVal.null => Except.ok 0
  | SVal.num q => Except.ok (ratTrunc q)
  | SVal.text s => Except.error s

/-- float(x) if x is not None else None. -/
def toOptFloatPy : SVal → Except String (Option ℚ)
  | SVal.null => Except.ok none
  | SVal.num q => Except.ok (some q)
  | SVal.text s => Except.error s

structure OpsRow where
  ts : Int
  dev : String
  dSel : SVal
  bLiga : SVal
  opAnd : SVal
  v1 : SVal
  v2 : SVal
  qtdSolic : SVal
  peso : SVal
deriving DecidableEq

/-- The open-operation record kept in operacao_aberta. -/
structure OpenOp where
  inicioTs : Int
  destino : String
  qtdSolicDesc : Option ℚ
  pesoInicio : Option ℚ
  pesoFim : Option ℚ
deriving DecidableEq

/-- Closing an open operation produces the emitted record; the start key is
the ISO form of the rise timestamp, modelled by the epoch itself. -/
def toOpRec (o : OpenOp) : OpRec :=
  { horario := some o.inicioTs, qntSolicitada := o.qtdSolicDesc,
    pesoInicio := o.pesoInicio, pesoFim := o.pesoFim }

structure DetState where
  resultado : OpsDict
  lastOp : List (String × Int)
  aberta : List (String × OpenOp)
deriving DecidableEq

def initDetState : DetState := ⟨[], [], []⟩

/-- resultado[dev][destino].append(op): the defaultdict creates the
two empty destination lists on first access of a device. -/
def resultAppend (res : OpsDict) (dev : String) (o : OpenOp) : OpsDict :=
  let entry := dictGetD res dev ([], [])
  if o.destino = "Masseira_1" then
    dictSet res dev (entry.1 ++ [toOpRec o], entry.2)
  else
    dictSet res dev (entry.1, entry.2 ++ [toOpRec o])

/-- Settlement scan of the single-period detector (calculations.py 283-291):
j walks forward while the rows belong to the same device; at the first row
with ts at or past alvo the weight overrides the fallback when non-null, and
the scan stops there either way. -/
def lookScan (dev : String) (alvo : Int) (fallback : Option ℚ) :
    List OpsRow → Except String (Option ℚ)
  | [] => Except.ok fallback
  | r :: rest =>
    if r.dev = dev then
      if r.ts ≥ alvo then
        match r.peso with
        | SVal.null => Except.ok fallback
        | v => toOptFloatPy v
      else lookScan dev alvo fallback rest
    else Except.ok fallback

/-- Position search of the single-period detector (calculations.py 274-281):
linear scan for the row with this (ts, dev); idx stays 0 when absent. -/
def lookaheadIdx (rows : List OpsRow) (ts : Int) (dev : String) : Nat :=
  match rows.findIdx? (fun r => r.ts = ts && r.dev = dev) with
  | some i => i
  | none => 0

def lookaheadSingle (rows : List OpsRow) (ts : Int) (dev : String)
    (fallback : Option ℚ) : Except String (Option ℚ) :=
  lookScan dev (ts + 10) fallback (rows.drop (lookaheadIdx rows ts dev + 1))

/-- Settlement scan of the multi-period detector (calculations.py 541-554):
walks the whole base row list with a started flag. -/
def lookScanMulti (dev : String) (ts alvo : Int) (fallback : Option ℚ) :
    List OpsRow → Bool → Except String (Option ℚ)
  | [], _ => Except.ok fallback
  | r :: rest, started =>
    if r.dev = dev && r.ts = ts then lookScanMulti dev ts alvo fallback rest true
    else if !started then lookScanMulti dev ts alvo fallback rest started
    else if r.dev ≠ dev then Except.ok fallback
    else if r.ts ≥ alvo then
      match r.peso with
      | SVal.null => Except.ok fallback
      | v => toOptFloatPy v
    else lookScanMulti dev ts alvo fallback rest started

def lookMulti (base : List OpsRow) (ts : Int) (dev : String)
    (fallback : Option ℚ) : Except String (Option ℚ) :=
  lookScanMulti dev ts (ts + 10) fallback base false

/-- One iteration of the detector loop (calculations.py 236-305), shared by
the single-period and multi-period paths; the two differ only in the
settlement lookahead, passed as look.  The orphan falling edge path
(continue after last_op[dev] = op) is equivalent to falling through to the
final last_op update, which stores the same value. -/
def opsStep (look : Int → String → Option ℚ → Except String (Option ℚ))
    (st : DetState) (r : OpsRow) : Except String DetState := do
  let op ← toOptIntPy r.opAnd
  let d ← toIntDefPy r.dSel
  let b ← toIntDefPy r.bLiga
  let v1i ← toIntDefPy r.v1
  let v2i ← toIntDefPy r.v2
  let prev := (dictGet st.lastOp r.dev).getD 0
  let st ←
    if op ≠ none ∧ prev = 0 ∧ op = some 1 ∧ d = 1 ∧ b = 1 then do
      let qtd ← toOptFloatPy r.qtdSolic
      let peso ← toOptFloatPy r.peso
      let destino := if v1i = 1 ∧ v2i = 0 then "Masseira_1" else "Masseira_2"
      pure { st with aberta := (dictSet st.aberta r.dev
               { inicioTs := r.ts, destino := destino, qtdSolicDesc := qtd,
                 pesoInicio := peso, pesoFim := peso }) }
    else pure st
  let st ←
    match dictGet st.aberta r.dev with
    | some o =>
      if op = some 1 then
        match r.peso with
        | SVal.null => pure st
        | v => do
          let pq ← toOptFloatPy v
          pure { st with aberta := dictSet st.aberta r.dev { o with pesoFim := pq } }
      else pure st
    | none => pure st
  let st ←
    if op ≠ none ∧ prev = 1 ∧ op = some 0 then
      match dictGet st.aberta r.dev with
      | none => pure st
      | some o => do
        let adjusted ← look r.ts r.dev o.pesoFim
        pure { st with aberta := dictPop st.aberta r.dev,
                       resultado := resultAppend st.resultado r.dev
                         { o with pesoFim := adjusted } }
    else pure st
  match op with
  | some opv => pure { st with lastOp := dictSet st.lastOp r.dev opv }
  | none => pure st

/-- The detector loop over a row list. -/
def opsLoop (look : Int → String → Option ℚ → Except String (Option ℚ)) :
    List OpsRow → DetState → Except String DetState
  | [], st => Except.ok st
  | r :: rest, st => do
    let st2 ← opsStep look st r
    opsLoop look rest st2

/-- End-of-window force close (calculations.py 308-315): every still-open
operation is appended with its last known ending weight, in insertion order. -/
def forceClose (st : DetState) : OpsDict :=
  st.aberta.foldl (fun res p => resultAppend res p.1 p.2) st.resultado

/-- Row fetch for the detector: timestamp BETWEEN lo AND hi plus the HAVING
clause keeping rows with non-NULL OpAndamento, BotaoLiga and Peso. -/
def fetchOpsRows (db : List OpsRow) (lo hi : Int) : List OpsRow :=
  db.filter (fun r => decide (lo ≤ r.ts) && decide (r.ts ≤ hi)
    && decide (r.opAnd ≠ SVal.null) && decide (r.bLiga ≠ SVal.null)
    && decide (r.peso ≠ SVal.null))

/-- Embedding of calcula_operacoes_descarga_tanques for an explicit window
(the db list is the pivoted per-category table, ordered by (device, ts)). -/
def calcula_operacoes_descarga_tanques (db : List OpsRow) (lo hi : Int) :
    Except String OpsDict := do
  let rows := fetchOpsRows db lo hi
  let st ← opsLoop (lookaheadSingle rows) rows initDetState
  pure (forceClose st)

/-- The multi-period detector loop (ops_for_period, calculations.py 497-579):
iterates the wide-window base rows, skipping rows outside the period before
any parsing; the lookahead walks the base rows. -/
def opsLoopSkip (base : List OpsRow) (sEp eEp : Int) :
    List OpsRow → DetState → Except String DetState
  | [], st => Except.ok st
  | r :: rest, st =>
    if r.ts < sEp || r.ts > eEp then opsLoopSkip base sEp eEp rest st
    else do
      let st2 ← opsStep (lookMulti base) st r
      opsLoopSkip base sEp eEp rest st2

def ops_for_period (base : List OpsRow) (sEp eEp : Int) :
    Except String OpsDict := do
  let st ← opsLoopSkip base sEp eEp base initDetState
  pure (forceClose st)

/-! ## Aggregation helpers (sum_ops_by_masseira / sum_ops_total,
calculations.py 323-357) -/

structure SumTot where
  dosada : ℚ
  realQ : ℚ
  num : Int
deriving DecidableEq

/-- Inner loop of the aggregation helpers: missing quantities count as 0,
the real quantity of an operation is starting weight minus ending weight. -/
def sumOpsList (acc : SumTot) (l : List OpRec) : SumTot :=
  l.foldl (fun a op =>
    { dosada := a.dosada + op.qntSolicitada.getD 0,
      realQ := a.realQ + (op.pesoInicio.getD 0 - op.pesoFim.getD 0),
      num := a.num + 1 }) acc

/-- Embedding of sum_ops_by_masseira: per-destination totals over all
devices, rounded to 2 decimals at the end. -/
def sum_ops_by_masseira (d : OpsDict) : SumTot × SumTot :=
  let raw := d.foldl (fun (acc : SumTot × SumTot) p =>
      (sumOpsList acc.1 p.2.1, sumOpsList acc.2 p.2.2))
    (⟨0, 0, 0⟩, ⟨0, 0, 0⟩)
  ({ dosada := pyRound 2 raw.1.dosada, realQ := pyRound 2 raw.1.realQ,
     num := raw.1.num },
   { dosada := pyRound 2 raw.2.dosada, realQ := pyRound 2 raw.2.realQ,
     num := raw.2.num })

/-- Embedding of sum_ops_total: totals across devices and destinations. -/
def sum_ops_total (d : OpsDict) : SumTot :=
  let raw := d.foldl (fun acc p => sumOpsList (sumOpsList acc p.2.1) p.2.2)
    ⟨0, 0, 0⟩
  { dosada := pyRound 2 raw.dosada, realQ := pyRound 2 raw.realQ,
    num := raw.num }

/-! ## Claims C5, C6, C8: detector behaviour -/

/-- A value that float()/int() accepts: NULL or REAL, not text. -/
def numOrNull : SVal → Bool
  | SVal.text _ => false
  | _ => true

/-- Setting a key makes it the key's binding. -/
theorem dictGet_dictSet {α : Type} (l : List (String × α)) (k : String)
    (v : α) : dictGet (dictSet l k v) k = some v := by
  rw [dictSet]
  by_cases h : l.any (fun p => p.1 = k)
  · rw [if_pos h]
    induction l with
    | nil => simp at h
    | cons p rest ih =>
      rw [List.map_cons]
      by_cases hp : p.1 = k
      · simp [dictGet, List.find?_cons, hp]
      · rw [if_neg hp]
        have h2 : rest.any (fun p => p.1 = k) = true := by
          rcases List.any_eq_true.mp h with ⟨x, hx, hxk⟩
          rcases List.mem_cons.mp hx with rfl | hx2
          · exact absurd (of_decide_eq_true hxk) hp
          · exact List.any_eq_true.mpr ⟨x, hx2, hxk⟩
        have hrec := ih h2
        simpa [dictGet, List.find?_cons, hp] using hrec
  · rw [if_neg h]
    induction l with
    | nil => simp [dictGet, List.find?_cons]
    | cons p rest ih =>
      have hp : ¬ (p.1 = k) := by
        intro hpk
        exact h (List.any_eq_true.mpr
          ⟨p, List.mem_cons_self p rest, decide_eq_true hpk⟩)
      have h2 : ¬ rest.any (fun p => p.1 = k) = true := by
        intro hr
        rcases List.any_eq_true.mp hr with ⟨x, hx, hxk⟩
        exact h (List.any_eq_true.mpr ⟨x, List.mem_cons_of_mem p hx, hxk⟩)
      have hrec := ih h2
      simpa [dictGet, List.cons_append, List.find?_cons, hp] using hrec

/-- The settlement rule as the specification words it: among the rows after
the current row that belong to the same device, the first sample with
timestamp at or after fall + 10 s supplies its weight when that weight is
non-null; otherwise the last ending weight observed while Active is kept. -/
def settleLookaheadSpec (rows : List OpsRow) (ts : Int) (dev : String)
    (fallback : Option ℚ) : Option ℚ :=
  match ((rows.drop (lookaheadIdx rows ts dev + 1)).takeWhile
      (fun r => r.dev = dev)).find? (fun r => r.ts ≥ ts + 10) with
  | some x =>
    match x.peso with
    | SVal.num q => some q
    | _ => fallback
  | none => fallback

/-- The code's settlement scan agrees with the declarative rule whenever the
scanned weights are parseable (no non-numeric text). -/
theorem lookScan_eq_spec (dev : String) (alvo : Int) (fallback : Option ℚ)
    (l : List OpsRow) (hok : ∀ r ∈ l, numOrNull r.peso = true) :
    lookScan dev alvo fallback l
      = Except.ok
          (match (l.takeWhile (fun r => r.dev = dev)).find?
              (fun r => r.ts ≥ alvo) with
           | some x =>
             match x.peso with
             | SVal.num q => some q
             | _ => fallback
           | none => fallback) := by
  induction l with
  | nil => rfl
  | cons r rest ih =>
    by_cases hdev : r.dev = dev
    · by_cases hts : r.ts ≥ alvo
      · rw [lookScan, if_pos hdev, if_pos hts,
          List.takeWhile_cons_of_pos (by simpa using hdev),
          List.find?_cons_of_pos _ (by simpa using hts)]
        cases hp : r.peso with
        | null => simp [hp]
        | num q => simp [toOptFloatPy, hp]
        | text s =>
          have hbad := hok r (List.mem_cons_self r rest)
          rw [hp] at hbad
          simp [numOrNull] at hbad
      · rw [lookScan, if_pos hdev, if_neg hts,
          ih (fun x hx => hok x (List.mem_cons_of_mem r hx)),
          List.takeWhile_cons_of_pos (by simpa using hdev),
          List.find?_cons_of_neg _ (by simpa using hts)]
    · rw [lookScan, if_neg hdev,
        List.takeWhile_cons_of_neg (by simpa using hdev)]
      rfl

/-- Claim C5: on a falling edge (previous in-progress value 1, current 0)
with an open operation, the detector settles the ending weight by the
forward scan - the first same-device sample at or after fall + 10 s
overrides the weight when non-null, otherwise the last Active-phase weight
is kept - and the operation is always closed: removed from the open map and
appended to the result under its destination.  A lookahead miss never blocks
the close. -/
theorem settlement_on_falling_edge
    (rows : List OpsRow) (st : DetState) (r : OpsRow) (o : OpenOp)
    (dv bv av av2 : Int)
    (hlast : dictGet st.lastOp r.dev = some 1)
    (hopen : dictGet st.aberta r.dev = some o)
    (hop : toOptIntPy r.opAnd = Except.ok (some 0))
    (hd : toIntDefPy r.dSel = Except.ok dv)
    (hb : toIntDefPy r.bLiga = Except.ok bv)
    (hv1 : toIntDefPy r.v1 = Except.ok av)
    (hv2 : toIntDefPy r.v2 = Except.ok av2)
    (hok : ∀ x ∈ rows, numOrNull x.peso = true) :
    lookaheadSingle rows r.ts r.dev o.pesoFim
      = Except.ok (settleLookaheadSpec rows r.ts r.dev o.pesoFim) ∧
    opsStep (lookaheadSingle rows) st r = Except.ok
      { resultado := resultAppend st.resultado r.dev
          { o with pesoFim := settleLookaheadSpec rows r.ts r.dev o.pesoFim },
        lastOp := dictSet st.lastOp r.dev 0,
        aberta := dictPop st.aberta r.dev } := by
  have hlook : lookaheadSingle rows r.ts r.dev o.pesoFim
      = Except.ok (settleLookaheadSpec rows r.ts r.dev o.pesoFim) := by
    rw [lookaheadSingle, settleLookaheadSpec]
    exact lookScan_eq_spec r.dev (r.ts + 10) o.pesoFim _
      (fun x hx => hok x (List.mem_of_mem_drop hx))
  refine ⟨hlook, ?_⟩
  rw [opsStep]
  simp +decide [hop, hd, hb, hv1, hv2, hlast, hopen, hlook, bind, Except.bind,
    pure, Except.pure]

/-- C5 witness fixture: the falling-edge row. -/
def c5fall : OpsRow :=
  { ts := 40, dev := "T", dSel := SVal.num 0, bLiga := SVal.num 0,
    opAnd := SVal.num 0, v1 := SVal.num 0, v2 := SVal.num 0,
    qtdSolic := SVal.null, peso := SVal.num 90 }

/-- C5 witness fixture: the settlement row 15 s after the fall. -/
def c5settle : OpsRow :=
  { ts := 55, dev := "T", dSel := SVal.num 0, bLiga := SVal.num 0,
    opAnd := SVal.num 0, v1 := SVal.num 0, v2 := SVal.num 0,
    qtdSolic := SVal.null, peso := SVal.num 85 }

/-- C5 witness fixture: the operation open when the edge falls. -/
def c5open : OpenOp :=
  { inicioTs := 10, destino := "Masseira_1", qtdSolicDesc := some 50,
    pesoInicio := some 100, pesoFim := some 90 }

/-- C5 witness fixture: detector state with the operation open. -/
def c5st : DetState :=
  { resultado := [], lastOp := [("T", 1)], aberta := [("T", c5open)] }

/-- Witness for C5: a concrete falling edge with a settlement sample 15 s
later carrying weight 85, which becomes the ending weight. -/
theorem settlement_on_falling_edge_witness :
    (dictGet c5st.lastOp "T" = some 1 ∧
     dictGet c5st.aberta "T" = some c5open ∧
     (∀ x ∈ [c5fall, c5settle], numOrNull x.peso = true)) ∧
    opsStep (lookaheadSingle [c5fall, c5settle]) c5st c5fall
      = Except.ok
        { resultado := resultAppend c5st.resultado "T"
            { c5open with
                pesoFim := settleLookaheadSpec [c5fall, c5settle] c5fall.ts
                  "T" c5open.pesoFim },
          lastOp := dictSet c5st.lastOp "T" 0,
          aberta := dictPop c5st.aberta "T" } ∧
    settleLookaheadSpec [c5fall, c5settle] c5fall.ts "T" c5open.pesoFim
      = some 85 :=
  ⟨⟨by decide, by decide, by decide⟩,
   (settlement_on_falling_edge [c5fall, c5settle] c5st c5fall c5open 0 0 0 0
      (by decide) (by decide) rfl rfl rfl rfl rfl (by decide)).2,
   by decide⟩

/-- C6 fixture: one synthetic row of the edge-correctness sequence. -/
def c6row (t : Int) (opv : ℚ) (w : ℚ) : OpsRow :=
  { ts := t, dev := "Tanque_1_Resina", dSel := SVal.num 1,
    bLiga := SVal.num 1, opAnd := SVal.num opv, v1 := SVal.num 1,
    v2 := SVal.num 0, qtdSolic := SVal.num 50, peso := SVal.num w }

/-- C6 fixture: operation-in-progress [0,1,1,1,0], weights
[100,100,95,90,90], requested 50, valve-1 = 1, valve-2 = 0. -/
def c6rows : List OpsRow :=
  [c6row 0 0 100, c6row 10 1 100, c6row 20 1 95, c6row 30 1 90,
   c6row 40 0 90]

/-- C6 fixture: the single expected emitted operation. -/
def c6out : OpsDict :=
  [("Tanque_1_Resina",
    ([{ horario := some 10, qntSolicitada := some 50,
        pesoInicio := some 100, pesoFim := some 90 }], []))]

/-- Claim C6: on the synthetic sequence the detector emits exactly one
operation with start weight 100, settled end weight 90 (no sample exists at
or after fall + 10 s, so the last Active weight is kept), destination
Masseira_1, and real quantity 100 - 90 = 10; and in general an opening edge
resolves destination Masseira_1 exactly when valve-1 is 1 and valve-2 is 0,
anything else giving Masseira_2. -/
theorem detector_edge_correctness
    (look : Int → String → Option ℚ → Except String (Option ℚ))
    (st : DetState) (r : OpsRow) (a b : ℚ) (qv pv : Option ℚ)
    (hop : toOptIntPy r.opAnd = Except.ok (some 1))
    (hd : toIntDefPy r.dSel = Except.ok 1)
    (hb : toIntDefPy r.bLiga = Except.ok 1)
    (hv1 : r.v1 = SVal.num a)
    (hv2 : r.v2 = SVal.num b)
    (hq : toOptFloatPy r.qtdSolic = Except.ok qv)
    (hp : toOptFloatPy r.peso = Except.ok pv)
    (hprev : dictGet st.lastOp r.dev = none) :
    calcula_operacoes_descarga_tanques c6rows 0 100 = Except.ok c6out ∧
    sum_ops_total c6out = { dosada := 50, realQ := 10, num := 1 } ∧
    (opsStep look st r).map (fun st2 => dictGet st2.aberta r.dev)
      = Except.ok (some
        { inicioTs := r.ts,
          destino := if ratTrunc a = 1 ∧ ratTrunc b = 0
                     then "Masseira_1" else "Masseira_2",
          qtdSolicDesc := qv, pesoInicio := pv, pesoFim := pv }) := by
  refine ⟨by decide, ?_, ?_⟩
  · norm_num [sum_ops_total, sumOpsList, c6out, pyRound, roundHalfEvenZ]
  · cases hpeso : r.peso with
    | text s => rw [hpeso] at hp; exact absurd hp (by simp [toOptFloatPy])
    | null =>
      rw [hpeso] at hp
      simp only [toOptFloatPy, Except.ok.injEq] at hp
      subst hp
      rw [opsStep]
      simp +decide [hop, hd, hb, hv1, hv2, hq, hprev, hpeso,
        show toIntDefPy (SVal.num a) = Except.ok (ratTrunc a) from rfl,
        show toIntDefPy (SVal.num b) = Except.ok (ratTrunc b) from rfl,
        show toOptFloatPy SVal.null = Except.ok none from rfl,
        bind, Except.bind, pure, Except.pure, Except.map, dictGet_dictSet]
    | num w =>
      rw [hpeso] at hp
      simp only [toOptFloatPy, Except.ok.injEq] at hp
      subst hp
      rw [opsStep]
      simp +decide [hop, hd, hb, hv1, hv2, hq, hprev, hpeso,
        show toIntDefPy (SVal.num a) = Except.ok (ratTrunc a) from rfl,
        show toIntDefPy (SVal.num b) = Except.ok (ratTrunc b) from rfl,
        show toOptFloatPy (SVal.num w) = Except.ok (some w) from rfl,
        bind, Except.bind, pure, Except.pure, Except.map, dictGet_dictSet]

/-- Witness for C6 at the concrete opening row of the synthetic sequence. -/
theorem detector_edge_correctness_witness :
    (toOptIntPy (c6row 10 1 100).opAnd = Except.ok (some 1) ∧
     toIntDefPy (c6row 10 1 100).dSel = Except.ok 1 ∧
     toIntDefPy (c6row 10 1 100).bLiga = Except.ok 1 ∧
     (c6row 10 1 100).v1 = SVal.num 1 ∧
     (c6row 10 1 100).v2 = SVal.num 0 ∧
     toOptFloatPy (c6row 10 1 100).qtdSolic = Except.ok (some 50) ∧
     toOptFloatPy (c6row 10 1 100).peso = Except.ok (some 100) ∧
     dictGet initDetState.lastOp (c6row 10 1 100).dev = none) ∧
    (calcula_operacoes_descarga_tanques c6rows 0 100 = Except.ok c6out ∧
     sum_ops_total c6out = { dosada := 50, realQ := 10, num := 1 } ∧
     (opsStep (lookaheadSingle c6rows) initDetState (c6row 10 1 100)).map
         (fun st2 => dictGet st2.aberta (c6row 10 1 100).dev)
       = Except.ok (some
         { inicioTs := (c6row 10 1 100).ts,
           destino := if ratTrunc 1 = 1 ∧ ratTrunc 0 = 0
                      then "Masseira_1" else "Masseira_2",
           qtdSolicDesc := some 50, pesoInicio := some 100,
           pesoFim := some 100 })) :=
  ⟨⟨rfl, rfl, rfl, rfl, rfl, rfl, rfl, rfl⟩,
   detector_edge_correctness (lookaheadSingle c6rows) initDetState
     (c6row 10 1 100) 1 0 (some 50) (some 100)
     rfl rfl rfl rfl rfl rfl rfl rfl⟩

/-! ### Claim C8: malformed signal values -/

/-- The five signal fields parsed unconditionally at the top of every loop
iteration (calculations.py 237-241). -/
def sigOk (r : OpsRow) : Bool :=
  numOrNull r.opAnd && numOrNull r.dSel && numOrNull r.bLiga
    && numOrNull r.v1 && numOrNull r.v2

/-- A row with a non-numeric signal value makes the loop body raise. -/
theorem opsStep_error_of_bad_row
    (look : Int → String → Option ℚ → Except String (Option ℚ))
    (st : DetState) (r : OpsRow) (h : sigOk r = false) :
    ∃ e, opsStep look st r = Except.error e := by
  cases h1 : r.opAnd with
  | text s => exact ⟨s, by rw [opsStep]; simp [h1, toOptIntPy, bind, Except.bind]⟩
  | _ =>
    cases h2 : r.dSel with
    | text s =>
      exact ⟨s, by rw [opsStep]
                   simp [h1, h2, toOptIntPy, toIntDefPy, bind, Except.bind]⟩
    | _ =>
      cases h3 : r.bLiga with
      | text s =>
        exact ⟨s, by rw [opsStep]
                     simp [h1, h2, h3, toOptIntPy, toIntDefPy, bind, Except.bind]⟩
      | _ =>
        cases h4 : r.v1 with
        | text s =>
          exact ⟨s, by rw [opsStep]
                       simp [h1, h2, h3, h4, toOptIntPy, toIntDefPy, bind,
                         Except.bind]⟩
        | _ =>
          cases h5 : r.v2 with
          | text s =>
            exact ⟨s, by rw [opsStep]
                         simp [h1, h2, h3, h4, h5, toOptIntPy, toIntDefPy,
                           bind, Except.bind]⟩
          | _ =>
            exfalso
            rw [sigOk, h1, h2, h3, h4, h5] at h
            simp [numOrNull] at h

/-- If any row of the batch has a non-numeric signal value, the detector
loop raises instead of skipping the row. -/
theorem opsLoop_error_of_bad_row
    (look : Int → String → Option ℚ → Except String (Option ℚ))
    (l : List OpsRow) (st : DetState)
    (h : ∃ r ∈ l, sigOk r = false) :
    ∃ e, opsLoop look l st = Except.error e := by
  induction l generalizing st with
  | nil =>
    obtain ⟨r, hr, -⟩ := h
    exact absurd hr (List.not_mem_nil r)
  | cons x rest ih =>
    by_cases hx : sigOk x = false
    · obtain ⟨e, he⟩ := opsStep_error_of_bad_row look st x hx
      exact ⟨e, by simp [opsLoop, he, bind, Except.bind]⟩
    · obtain ⟨r, hr, hbad⟩ := h
      have hrrest : r ∈ rest := by
        rcases List.mem_cons.mp hr with rfl | h2
        · exact absurd hbad hx
        · exact h2
      cases hstep : opsStep look st x with
      | error e => exact ⟨e, by simp [opsLoop, hstep, bind, Except.bind]⟩
      | ok st2 =>
        obtain ⟨e, he⟩ := ih st2 ⟨r, hrrest, hbad⟩
        exact ⟨e, by simp [opsLoop, hstep, bind, Except.bind, he]⟩

/-- Claim C8 amended: a pivoted row with a non-numeric signal value makes
the whole detector batch fail (the ValueError of the single int() call
propagates out of the loop); no single-row skip happens. -/
theorem malformed_value_fails_batch (db : List OpsRow) (lo hi : Int)
    (h : ∃ r ∈ fetchOpsRows db lo hi, sigOk r = false) :
    ∃ e, calcula_operacoes_descarga_tanques db lo hi = Except.error e := by
  obtain ⟨e, he⟩ := opsLoop_error_of_bad_row
    (lookaheadSingle (fetchOpsRows db lo hi)) (fetchOpsRows db lo hi)
    initDetState h
  exact ⟨e, by simp [calcula_operacoes_descarga_tanques, he, bind, Except.bind]⟩

/-- C8 fixture: a healthy row. -/
def c8good (t : Int) (w : ℚ) : OpsRow :=
  { ts := t, dev := "T", dSel := SVal.num 0, bLiga := SVal.num 0,
    opAnd := SVal.num 0, v1 := SVal.num 0, v2 := SVal.num 0,
    qtdSolic := SVal.null, peso := SVal.num w }

/-- C8 fixture: a row whose operation-in-progress cell holds text. -/
def c8bad : OpsRow :=
  { ts := 10, dev := "T", dSel := SVal.num 0, bLiga := SVal.num 0,
    opAnd := SVal.text "ERR", v1 := SVal.num 0, v2 := SVal.num 0,
    qtdSolic := SVal.null, peso := SVal.num 80 }

/-- Counterexample to claim C8 as stated: with a malformed row between two
healthy ones the whole batch fails with the parse error, while the same
batch without the malformed row succeeds - the detector does not skip the
single bad row and continue. -/
theorem malformed_value_counterexample :
    calcula_operacoes_descarga_tanques [c8good 0 100, c8bad, c8good 20 90]
        0 100 = Except.error "ERR" ∧
    calcula_operacoes_descarga_tanques [c8good 0 100, c8good 20 90] 0 100
      = Except.ok [] := by
  constructor <;> decide

/-- Witness for the amended C8 at the same concrete batch. -/
theorem malformed_value_fails_batch_witness :
    (∃ r ∈ fetchOpsRows [c8good 0 100, c8bad, c8good 20 90] 0 100,
       sigOk r = false) ∧
    ∃ e, calcula_operacoes_descarga_tanques [c8good 0 100, c8bad, c8good 20 90]
        0 100 = Except.error e :=
  ⟨by decide,
   malformed_value_fails_batch [c8good 0 100, c8bad, c8good 20 90] 0 100
     (by decide)⟩

/-! ## Claim C9: watermark resumption of the daily rollup

Supporting lemmas: characterization of the store after applying the rollup
rows of a window, decomposition of a window at a sample boundary, and
homomorphism facts for the per-day aggregates. -/

theorem mem_dedupKeys {α : Type} [DecidableEq α] (seen l : List α) (x : α) :
    x ∈ dedupKeys seen l ↔ x ∈ l ∧ x ∉ seen := by
  induction l generalizing seen with
  | nil => simp [dedupKeys]
  | cons k rest ih =>
    by_cases hk : k ∈ seen
    · rw [dedupKeys, if_pos hk, ih]
      constructor
      · rintro ⟨hx, hs⟩
        exact ⟨List.mem_cons_of_mem k hx, hs⟩
      · rintro ⟨hx, hs⟩
        rcases List.mem_cons.mp hx with rfl | hx2
        · exact absurd hk hs
        · exact ⟨hx2, hs⟩
    · rw [dedupKeys, if_neg hk]
      constructor
      · intro hx
        rcases List.mem_cons.mp hx with rfl | hx2
        · exact ⟨List.mem_cons_self x rest, hk⟩
        · obtain ⟨h1, h2⟩ := (ih (k :: seen)).mp hx2
          refine ⟨List.mem_cons_of_mem k h1, ?_⟩
          intro hs
          exact h2 (List.mem_cons_of_mem k hs)
      · rintro ⟨hx, hs⟩
        rcases List.mem_cons.mp hx with rfl | hx2
        · exact List.mem_cons_self x _
        · by_cases hxk : x = k
          · subst hxk
            exact List.mem_cons_self x _
          · refine List.mem_cons_of_mem k ((ih (k :: seen)).mpr ⟨hx2, ?_⟩)
            intro hmem
            rcases List.mem_cons.mp hmem with h | h
            · exact hxk h
            · exact hs h

theorem nodup_dedupKeys {α : Type} [DecidableEq α] (seen l : List α) :
    (dedupKeys seen l).Nodup := by
  induction l generalizing seen with
  | nil => exact List.nodup_nil
  | cons k rest ih =>
    by_cases hk : k ∈ seen
    · rw [dedupKeys, if_pos hk]
      exact ih seen
    · rw [dedupKeys, if_neg hk]
      refine List.Nodup.cons ?_ (ih (k :: seen))
      intro hmem
      exact ((mem_dedupKeys (k :: seen) rest k).mp hmem).2
        (List.mem_cons_self k seen)

theorem find?_eq_self {α : Type} [DecidableEq α] (l : List α) (d : α) :
    l.find? (fun x => x = d) = if d ∈ l then some d else none := by
  induction l with
  | nil => simp
  | cons x rest ih =>
    by_cases hx : x = d
    · subst hx
      simp [List.find?_cons_of_pos]
    · rw [List.find?_cons_of_neg _ (by simpa using hx), ih]
      by_cases hd : d ∈ rest
      · rw [if_pos hd, if_pos (List.mem_cons_of_mem x hd)]
      · rw [if_neg hd, if_neg ?_]
        intro hmem
        rcases List.mem_cons.mp hmem with h | h
        · exact hx h.symm
        · exact hd h

/-- The INSERT / DO UPDATE alternative of the upsert. -/
def upsertVal (o : Option StoreRow) (r : DayRow) : StoreRow :=
  match o with
  | none => insertRowOf r
  | some old => mergeRow old r

theorem upsert_day (st : MStore) (r : DayRow) (d : Int) :
    upsert_masseira_daily_row st r d
      = if d = r.day then some (upsertVal (st r.day) r) else st d := by
  by_cases hd : d = r.day
  · subst hd
    cases hst : st r.day <;>
      simp [upsert_masseira_daily_row, upsertVal, hst]
  · simp [upsert_masseira_daily_row, hd]

theorem applyRows_not_mem (st : MStore) (rows : List DayRow) (d : Int)
    (h : ∀ r ∈ rows, r.day ≠ d) : applyRows st rows d = st d := by
  induction rows generalizing st with
  | nil => rfl
  | cons r rest ih =>
    show applyRows (upsert_masseira_daily_row st r) rest d = st d
    rw [ih _ (fun x hx => h x (List.mem_cons_of_mem r hx)), upsert_day,
      if_neg (fun hd => h r (List.mem_cons_self r rest) hd.symm)]

/-- Store after a fold of day-distinct rows: at most one upsert touches a
given day. -/
theorem applyRows_nodup_days (st : MStore) (rows : List DayRow) (d : Int)
    (h : (rows.map DayRow.day).Nodup) :
    applyRows st rows d
      = match rows.find? (fun r => r.day = d) with
        | some r => some (upsertVal (st d) r)
        | none => st d := by
  induction rows generalizing st with
  | nil => rfl
  | cons r rest ih =>
    rw [List.map_cons] at h
    obtain ⟨hhead, hrest⟩ := List.nodup_cons.mp h
    by_cases hd : r.day = d
    · rw [List.find?_cons_of_pos _ (by simpa using hd)]
      show applyRows (upsert_masseira_daily_row st r) rest d = _
      rw [applyRows_not_mem _ _ _ ?_, upsert_day, if_pos hd.symm, hd]
      intro x hx hxd
      apply hhead
      rw [hd, ← hxd]
      exact List.mem_map_of_mem DayRow.day hx
    · rw [List.find?_cons_of_neg _ (by simpa using hd)]
      show applyRows (upsert_masseira_daily_row st r) rest d = _
      rw [ih _ hrest]
      have hst : upsert_masseira_daily_row st r d = st d := by
        rw [upsert_day, if_neg (fun h2 => hd h2.symm)]
      cases hfind : rest.find? (fun x => x.day = d) with
      | none => simp [hst]
      | some r2 => simp [hst]

theorem rollupQuery_map_day (db : List MRow) (lo hi : Int) :
    (rollupQuery db lo hi).map DayRow.day
      = dedupKeys [] ((rollupWin db lo hi).map dayOf) := by
  rw [rollupQuery, List.map_map]
  have hfun : DayRow.day ∘ dayRollup (rollupWin db lo hi) = id :=
    funext fun dd => rfl
  rw [hfun, List.map_id]

/-- The store after applying one rollup run: the day present in the window
is merged (or inserted) exactly once, other days are untouched. -/
theorem applyRows_rollup_char (st : MStore) (db : List MRow) (lo hi d : Int) :
    applyRows st (rollupQuery db lo hi) d
      = if d ∈ (rollupWin db lo hi).map dayOf
        then some (upsertVal (st d) (dayRollup (rollupWin db lo hi) d))
        else st d := by
  rw [applyRows_nodup_days _ _ _ ?_]
  · rw [rollupQuery, List.find?_map]
    have hfun : ((fun r : DayRow => decide (r.day = d))
          ∘ dayRollup (rollupWin db lo hi))
        = (fun dd : Int => decide (dd = d)) := funext fun dd => rfl
    rw [hfun]
    rw [show (fun dd : Int => decide (dd = d))
        = (fun dd : Int => decide ((fun x => x = d) dd)) from rfl]
    rw [find?_eq_self]
    by_cases hd : d ∈ dedupKeys [] ((rollupWin db lo hi).map dayOf)
    · rw [if_pos hd, if_pos ((mem_dedupKeys _ _ d).mp hd).1]
      rfl
    · rw [if_neg hd, if_neg ?_]
      · rfl
      · intro hmem
        exact hd ((mem_dedupKeys _ _ d).mpr ⟨hmem, List.not_mem_nil d⟩)
  · rw [rollupQuery_map_day]
    exact nodup_dedupKeys _ _

/-! ### Algebra of the null-safe MAX / MIN folds -/

theorem omax_none_right {α : Type} [LinearOrder α] (a : Option α) :
    omax a none = a := by
  cases a <;> rfl

theorem omax_none_left {α : Type} [LinearOrder α] (a : Option α) :
    omax none a = a := rfl

theorem omin_none_left {α : Type} [LinearOrder α] (a : Option α) :
    omin none a = a := rfl

theorem omin_assoc {α : Type} [LinearOrder α] (a b c : Option α) :
    omin (omin a b) c = omin a (omin b c) := by
  cases a <;> cases b <;> cases c <;> simp [omin, min_assoc]

theorem omax_assoc {α : Type} [LinearOrder α] (a b c : Option α) :
    omax (omax a b) c = omax a (omax b c) := by
  cases a <;> cases b <;> cases c <;> simp [omax, max_assoc]

theorem omax_comm {α : Type} [LinearOrder α] (a b : Option α) :
    omax a b = omax b a := by
  cases a <;> cases b <;> simp [omax, max_comm]

theorem omax_self {α : Type} [LinearOrder α] (a : Option α) :
    omax a a = a := by
  cases a <;> simp [omax]

theorem omin_none_right {α : Type} [LinearOrder α] (a : Option α) :
    omin a none = a := by
  cases a <;> rfl

theorem foldl_omax_init {α β : Type} [LinearOrder α] (f : β → Option α)
    (l : List β) (acc : Option α) :
    l.foldl (fun a r => omax a (f r)) acc = omax acc (ofoldMax f l) := by
  induction l generalizing acc with
  | nil => simp [ofoldMax, omax_none_right]
  | cons r rest ih =>
    rw [List.foldl_cons, ih (omax acc (f r)),
      show ofoldMax f (r :: rest) = rest.foldl (fun a x => omax a (f x))
        (omax none (f r)) from rfl,
      ih (omax none (f r)), omax_none_left, omax_assoc]

theorem ofoldMax_cons {α β : Type} [LinearOrder α] (f : β → Option α)
    (x : β) (l : List β) :
    ofoldMax f (x :: l) = omax (f x) (ofoldMax f l) := by
  rw [ofoldMax, List.foldl_cons, foldl_omax_init]
  cases f x <;> rfl

theorem ofoldMax_append {α β : Type} [LinearOrder α] (f : β → Option α)
    (l1 l2 : List β) :
    ofoldMax f (l1 ++ l2) = omax (ofoldMax f l1) (ofoldMax f l2) := by
  rw [ofoldMax, List.foldl_append, foldl_omax_init]
  rfl

theorem ofoldMax_absorb {α β : Type} [LinearOrder α] (f : β → Option α)
    (l : List β) (x : β) (hx : x ∈ l) :
    omax (ofoldMax f l) (f x) = ofoldMax f l := by
  induction l with
  | nil => exact absurd hx (List.not_mem_nil x)
  | cons h t ih =>
    rw [ofoldMax_cons]
    rcases List.mem_cons.mp hx with rfl | hxt
    · rw [omax_assoc, omax_comm (ofoldMax f t) (f x), ← omax_assoc,
        omax_self]
    · rw [omax_assoc, ih hxt]

theorem foldl_omin_init {α β : Type} [LinearOrder α] (f : β → Option α)
    (l : List β) (acc : Option α) :
    l.foldl (fun a r => omin a (f r)) acc = omin acc (ofoldMin f l) := by
  induction l generalizing acc with
  | nil => simp [ofoldMin, omin_none_right]
  | cons r rest ih =>
    rw [List.foldl_cons, ih (omin acc (f r)),
      show ofoldMin f (r :: rest) = rest.foldl (fun a x => omin a (f x))
        (omin none (f r)) from rfl,
      ih (omin none (f r)), omin_none_left, omin_assoc]

theorem ofoldMin_cons {α β : Type} [LinearOrder α] (f : β → Option α)
    (x : β) (l : List β) :
    ofoldMin f (x :: l) = omin (f x) (ofoldMin f l) := by
  rw [ofoldMin, List.foldl_cons, foldl_omin_init]
  cases f x <;> rfl

theorem ofoldMin_append {α β : Type} [LinearOrder α] (f : β → Option α)
    (l1 l2 : List β) :
    ofoldMin f (l1 ++ l2) = omin (ofoldMin f l1) (ofoldMin f l2) := by
  rw [ofoldMin, List.foldl_append, foldl_omin_init]
  rfl

/-- A non-null MIN fold value is attained by some element. -/
theorem ofoldMin_attained {α β : Type} [LinearOrder α] (f : β → Option α)
    (l : List β) (a : α) (h : ofoldMin f l = some a) :
    ∃ r ∈ l, f r = some a := by
  induction l with
  | nil => simp [ofoldMin] at h
  | cons x t ih =>
    rw [ofoldMin_cons] at h
    cases hfx : f x with
    | none =>
      rw [hfx] at h
      obtain ⟨r, hr, hfr⟩ := ih (by simpa [omin] using h)
      exact ⟨r, List.mem_cons_of_mem x hr, hfr⟩
    | some v =>
      rw [hfx] at h
      cases ht : ofoldMin f t with
      | none =>
        rw [ht] at h
        simp only [omin, Option.some.injEq] at h
        exact ⟨x, List.mem_cons_self x t, by rw [hfx, h]⟩
      | some w =>
        rw [ht] at h
        simp only [omin, Option.some.injEq] at h
        rcases min_choice v w with hm | hm
        · exact ⟨x, List.mem_cons_self x t, by rw [hfx, ← h, hm]⟩
        · obtain ⟨r, hr, hfr⟩ := ih (by rw [ht, ← hm, h])
          exact ⟨r, List.mem_cons_of_mem x hr, hfr⟩

/-- The CASE merge of corrente_max in the upsert is the null-safe max. -/
theorem mergeCorr_eq_omax (a b : Option ℚ) : mergeCorr a b = omax a b := by
  cases a with
  | none => cases b <;> rfl
  | some x =>
    cases b with
    | none => rfl
    | some y =>
      simp only [mergeCorr, omax, Option.some.injEq]
      by_cases h : y > x
      · rw [if_pos h, max_eq_right (le_of_lt h)]
      · rw [if_neg h, max_eq_left (not_lt.mp h)]

/-- The CASE merge of last_ts in the upsert is the null-safe max. -/
theorem mergeLast_eq_omax (a b : Option Int) : mergeLast a b = omax a b := by
  cases a with
  | none => cases b <;> rfl
  | some x =>
    cases b with
    | none => rfl
    | some y =>
      simp only [mergeLast, omax, Option.some.injEq]
      by_cases h : y > x
      · rw [if_pos h, max_eq_right (le_of_lt h)]
      · rw [if_neg h, max_eq_left (not_lt.mp h)]

/-! ### Decomposing a scan window at a sample boundary -/

/-- Splitting the closed BETWEEN window of a time-sorted table at an inner
point: the rows up to mid followed by the rows strictly past mid. -/
theorem rollupWin_split (db : List MRow) (lo mid hi : Int)
    (hsort : db.Pairwise (fun a b => a.ts < b.ts))
    (h1 : lo ≤ mid) (h2 : mid ≤ hi) :
    rollupWin db lo hi
      = rollupWin db lo mid
        ++ db.filter (fun r => decide (mid < r.ts) && decide (r.ts ≤ hi)) := by
  induction db with
  | nil => rfl
  | cons a rest ih =>
    obtain ⟨ha, hrest⟩ := List.pairwise_cons.mp hsort
    by_cases hlo : lo ≤ a.ts
    · by_cases hmid : a.ts ≤ mid
      · rw [rollupWin, List.filter_cons_of_pos (by simp [hlo, le_trans hmid h2]),
          rollupWin, List.filter_cons_of_pos (by simp [hlo, hmid]),
          List.filter_cons_of_neg (by simp [not_lt.mpr hmid]),
          List.cons_append]
        rw [rollupWin, rollupWin] at ih
        rw [ih hrest]
      · by_cases hhi : a.ts ≤ hi
        · rw [rollupWin, List.filter_cons_of_pos (by simp [hlo, hhi]),
            rollupWin, List.filter_cons_of_neg (by simp [hmid]),
            List.filter_cons_of_pos (by simp [not_le.mp hmid, hhi])]
          have hrestempty : rest.filter
              (fun r => decide (lo ≤ r.ts) && decide (r.ts ≤ mid)) = [] := by
            rw [List.filter_eq_nil_iff]
            intro r hr
            have : a.ts < r.ts := ha r hr
            simp only [Bool.and_eq_true, decide_eq_true_eq, not_and]
            intro _
            omega
          rw [rollupWin, rollupWin] at ih
          rw [ih hrest, hrestempty, List.nil_append, List.nil_append]
        · rw [rollupWin, List.filter_cons_of_neg (by simp [hhi]),
            rollupWin, List.filter_cons_of_neg (by
              simp only [Bool.and_eq_true, decide_eq_true_eq, not_and]
              intro _
              omega),
            List.filter_cons_of_neg (by simp [hhi])]
          rw [rollupWin, rollupWin] at ih
          rw [ih hrest]
    · rw [rollupWin, List.filter_cons_of_neg (by simp [hlo]),
        rollupWin, List.filter_cons_of_neg (by simp [hlo]),
        List.filter_cons_of_neg (by
          simp only [Bool.and_eq_true, decide_eq_true_eq, not_and]
          intro h
          omega)]
      rw [rollupWin, rollupWin] at ih
      rw [ih hrest]

/-- A window starting exactly at a sample boundary is that sample followed
by the strictly-later rows. -/
theorem rollupWin_at_boundary (db : List MRow) (T1 T2 : Int) (s1 : MRow)
    (hsort : db.Pairwise (fun a b => a.ts < b.ts))
    (hs1 : s1 ∈ db) (hts : s1.ts = T1) (h12 : T1 ≤ T2) :
    rollupWin db T1 T2
      = s1 :: db.filter (fun r => decide (T1 < r.ts) && decide (r.ts ≤ T2)) := by
  induction db with
  | nil => exact absurd hs1 (List.not_mem_nil s1)
  | cons a rest ih =>
    obtain ⟨ha, hrest⟩ := List.pairwise_cons.mp hsort
    rcases List.mem_cons.mp hs1 with rfl | hmem
    · rw [rollupWin, List.filter_cons_of_pos (by simp [hts, h12]),
        List.filter_cons_of_neg (by simp [hts])]
      congr 1
      apply List.filter_congr
      intro r hr
      have hlt : s1.ts < r.ts := ha r hr
      have h1 : T1 < r.ts := hts ▸ hlt
      rw [decide_eq_true (le_of_lt h1), decide_eq_true h1]
    · have hlt : a.ts < T1 := hts ▸ ha s1 hmem
      rw [rollupWin, List.filter_cons_of_neg (by
          simp only [Bool.and_eq_true, decide_eq_true_eq, not_and]
          intro h
          omega),
        List.filter_cons_of_neg (by
          simp only [Bool.and_eq_true, decide_eq_true_eq, not_and]
          intro h
          omega)]
      rw [rollupWin] at ih
      exact ih hrest hmem

/-- In a time-sorted list, an element whose timestamp bounds all others from
above is the last element. -/
theorem sorted_getLast (l : List MRow) (x : MRow)
    (hsort : l.Pairwise (fun a b => a.ts < b.ts)) (hx : x ∈ l)
    (hmax : ∀ r ∈ l, r.ts ≤ x.ts) : l.getLast? = some x := by
  induction l with
  | nil => exact absurd hx (List.not_mem_nil x)
  | cons a rest ih =>
    obtain ⟨ha, hrest⟩ := List.pairwise_cons.mp hsort
    cases rest with
    | nil =>
      rcases List.mem_cons.mp hx with rfl | h
      · rfl
      · exact absurd h (List.not_mem_nil x)
    | cons b rest2 =>
      have hx2 : x ∈ b :: rest2 := by
        rcases List.mem_cons.mp hx with hxa | h
        · exfalso
          have h1 : x.ts < b.ts := by
            rw [hxa]
            exact ha b (List.mem_cons_self b rest2)
          have h2 : b.ts ≤ x.ts :=
            hmax b (List.mem_cons_of_mem _ (List.mem_cons_self b rest2))
          omega
        · exact h
      rw [List.getLast?_cons_cons]
      exact ih hrest hx2 (fun r hr => hmax r (List.mem_cons_of_mem a hr))

/-- The LAG predecessor carried into the second half of a split. -/
def lastD (xs : List MRow) (p : Option MRow) : Option MRow :=
  match xs.getLast? with
  | some x => some x
  | none => p

theorem pairsAux_append (xs ys : List MRow) (p : Option MRow) :
    pairsAux p (xs ++ ys) = pairsAux p xs ++ pairsAux (lastD xs p) ys := by
  induction xs generalizing p with
  | nil => rfl
  | cons a rest ih =>
    rw [List.cons_append, pairsAux, pairsAux, ih (some a), List.cons_append]
    have hlast : lastD (a :: rest) p = lastD rest (some a) := by
      cases rest with
      | nil => rfl
      | cons b rest2 =>
        rw [lastD, lastD, List.getLast?_cons_cons]
        cases hg : (b :: rest2).getLast? with
        | none =>
          exact absurd (List.getLast?_eq_none_iff.mp hg) (List.cons_ne_nil b rest2)
        | some y => rfl
    rw [hlast]

/-! ### Per-day sums of the LAG pairs -/

def sumE (pl : List (Option MRow × MRow)) (d : Int) : ℚ :=
  ((pl.filter (fun pc => dayOf pc.2 = d)).map energiaContrib).sum

def sumH (pl : List (Option MRow × MRow)) (d : Int) : ℚ :=
  ((pl.filter (fun pc => dayOf pc.2 = d)).map horasContrib).sum

theorem rawEnergia_eq_sumE (win : List MRow) (d : Int) :
    rawEnergia win d = sumE (pairsAux none win) d := rfl

theorem rawHoras_eq_sumH (win : List MRow) (d : Int) :
    rawHoras win d = sumH (pairsAux none win) d := rfl

theorem sumE_append (l1 l2 : List (Option MRow × MRow)) (d : Int) :
    sumE (l1 ++ l2) d = sumE l1 d + sumE l2 d := by
  simp [sumE, List.filter_append]

theorem sumH_append (l1 l2 : List (Option MRow × MRow)) (d : Int) :
    sumH (l1 ++ l2) d = sumH l1 d + sumH l2 d := by
  simp [sumH, List.filter_append]

theorem sumE_cons_none (r : MRow) (l : List (Option MRow × MRow)) (d : Int) :
    sumE ((none, r) :: l) d = sumE l d := by
  by_cases hd : dayOf r = d
  · rw [sumE, List.filter_cons_of_pos (by simpa using hd)]
    simp [energiaContrib, sumE]
  · rw [sumE, List.filter_cons_of_neg (by simpa using hd)]
    rfl

theorem sumH_cons_none (r : MRow) (l : List (Option MRow × MRow)) (d : Int) :
    sumH ((none, r) :: l) d = sumH l d := by
  by_cases hd : dayOf r = d
  · rw [sumH, List.filter_cons_of_pos (by simpa using hd)]
    simp [horasContrib, sumH]
  · rw [sumH, List.filter_cons_of_neg (by simpa using hd)]
    rfl

/-- The store produced by one rollup run from an empty store. -/
theorem rollupStore_char (db : List MRow) (lo hi : Int) (d : Int) :
    applyRows emptyMStore (rollupQuery db lo hi) d
      = if d ∈ (rollupWin db lo hi).map dayOf
        then some (insertRowOf (dayRollup (rollupWin db lo hi) d))
        else none := by
  rw [applyRows_rollup_char]
  rfl

theorem dayRows_append (l1 l2 : List MRow) (d : Int) :
    dayRows (l1 ++ l2) d = dayRows l1 d ++ dayRows l2 d :=
  List.filter_append _ _

theorem dayRows_cons (r : MRow) (l : List MRow) (d : Int) :
    dayRows (r :: l) d
      = if dayOf r = d then r :: dayRows l d else dayRows l d := by
  by_cases h : dayOf r = d
  · rw [dayRows, List.filter_cons_of_pos (by simpa using h), if_pos h]
    rfl
  · rw [dayRows, List.filter_cons_of_neg (by simpa using h), if_neg h]
    rfl

theorem dayRows_eq_nil (l : List MRow) (d : Int) (h : d ∉ l.map dayOf) :
    dayRows l d = [] := by
  rw [dayRows, List.filter_eq_nil_iff]
  intro r hr
  simp only [decide_eq_true_eq]
  intro hd
  exact h (List.mem_map.mpr ⟨r, hr, hd⟩)

theorem correnteOf_append (l1 l2 : List MRow) (d : Int) :
    correnteOf (l1 ++ l2) d = omax (correnteOf l1 d) (correnteOf l2 d) := by
  rw [correnteOf, dayRows_append, ofoldMax_append]
  rfl

theorem firstTsOf_append (l1 l2 : List MRow) (d : Int) :
    firstTsOf (l1 ++ l2) d = omin (firstTsOf l1 d) (firstTsOf l2 d) := by
  rw [firstTsOf, dayRows_append, ofoldMin_append]
  rfl

theorem lastTsOf_append (l1 l2 : List MRow) (d : Int) :
    lastTsOf (l1 ++ l2) d = omax (lastTsOf l1 d) (lastTsOf l2 d) := by
  rw [lastTsOf, dayRows_append, ofoldMax_append]
  rfl

theorem correnteOf_cons (r : MRow) (l : List MRow) (d : Int) :
    correnteOf (r :: l) d
      = if dayOf r = d then omax r.currMag (correnteOf l d)
        else correnteOf l d := by
  rw [correnteOf, dayRows_cons]
  by_cases h : dayOf r = d
  · rw [if_pos h, if_pos h]
    exact ofoldMax_cons _ _ _
  · rw [if_neg h, if_neg h]
    rfl

theorem firstTsOf_cons (r : MRow) (l : List MRow) (d : Int) :
    firstTsOf (r :: l) d
      = if dayOf r = d then omin (some r.ts) (firstTsOf l d)
        else firstTsOf l d := by
  rw [firstTsOf, dayRows_cons]
  by_cases h : dayOf r = d
  · rw [if_pos h, if_pos h]
    exact ofoldMin_cons _ _ _
  · rw [if_neg h, if_neg h]
    rfl

theorem lastTsOf_cons (r : MRow) (l : List MRow) (d : Int) :
    lastTsOf (r :: l) d
      = if dayOf r = d then omax (some r.ts) (lastTsOf l d)
        else lastTsOf l d := by
  rw [lastTsOf, dayRows_cons]
  by_cases h : dayOf r = d
  · rw [if_pos h, if_pos h]
    exact ofoldMax_cons _ _ _
  · rw [if_neg h, if_neg h]
    rfl

theorem dayRows_ne_nil (l : List MRow) (d : Int) (h : d ∈ l.map dayOf) :
    dayRows l d ≠ [] := by
  obtain ⟨r, hr, hd⟩ := List.mem_map.mp h
  exact List.ne_nil_of_mem (List.mem_filter.mpr ⟨hr, by simpa using hd⟩)

theorem ofoldMin_ts_isSome (l : List MRow) (h : l ≠ []) :
    ∃ a, ofoldMin (fun r => some r.ts) l = some a := by
  cases l with
  | nil => exact absurd rfl h
  | cons r t =>
    rw [ofoldMin_cons]
    cases ht : ofoldMin (fun r => some (MRow.ts r)) t with
    | none => exact ⟨r.ts, rfl⟩
    | some w => exact ⟨min r.ts w, rfl⟩

/-- Splitting the MAX aggregate of corrente at a boundary sample that the
first half already contains. -/
theorem correnteOf_split (A B : List MRow) (s1 : MRow) (d : Int)
    (hs1A : s1 ∈ A) :
    correnteOf (A ++ B) d
      = mergeCorr (correnteOf A d) (correnteOf (s1 :: B) d) := by
  rw [mergeCorr_eq_omax, correnteOf_append, correnteOf_cons]
  by_cases hds : dayOf s1 = d
  · rw [if_pos hds, ← omax_assoc,
      show omax (correnteOf A d) s1.currMag = correnteOf A d from
        ofoldMax_absorb _ _ s1 (List.mem_filter.mpr ⟨hs1A, by simpa using hds⟩)]
  · rw [if_neg hds]

/-- Splitting the MAX aggregate of last_ts at a boundary sample that the
first half already contains. -/
theorem lastTsOf_split (A B : List MRow) (s1 : MRow) (d : Int)
    (hs1A : s1 ∈ A) :
    lastTsOf (A ++ B) d
      = mergeLast (lastTsOf A d) (lastTsOf (s1 :: B) d) := by
  rw [mergeLast_eq_omax, lastTsOf_append, lastTsOf_cons]
  by_cases hds : dayOf s1 = d
  · rw [if_pos hds, ← omax_assoc,
      show omax (lastTsOf A d) (some s1.ts) = lastTsOf A d from
        ofoldMax_absorb _ _ s1 (List.mem_filter.mpr ⟨hs1A, by simpa using hds⟩)]
  · rw [if_neg hds]

/-- When the first half holds rows of the day, the MIN aggregate of first_ts
over the whole window is the first half's value (all second-half rows are
strictly later than the boundary). -/
theorem firstTsOf_split_presA (A B : List MRow) (T1 d : Int)
    (hDA : d ∈ A.map dayOf)
    (hbndA : ∀ r ∈ A, r.ts ≤ T1) (hbndB : ∀ r ∈ B, T1 < r.ts) :
    firstTsOf (A ++ B) d = firstTsOf A d := by
  rw [firstTsOf_append]
  obtain ⟨a, ha⟩ := ofoldMin_ts_isSome (dayRows A d) (dayRows_ne_nil A d hDA)
  have haT1 : a ≤ T1 := by
    obtain ⟨r, hr, hra⟩ := ofoldMin_attained _ _ a ha
    have : r.ts = a := by injection hra
    rw [← this]
    exact hbndA r (List.mem_of_mem_filter hr)
  rw [show firstTsOf A d = some a from ha]
  cases hfB : firstTsOf B d with
  | none => rfl
  | some b =>
    obtain ⟨r, hr, hrb⟩ := ofoldMin_attained _ _ b hfB
    have hbT1 : T1 < b := by
      have hrts : r.ts = b := by injection hrb
      rw [← hrts]
      exact hbndB r (List.mem_of_mem_filter hr)
    simp only [omin, Option.some.injEq]
    omega

/-- The energy SUM of a window equals the two half-window SUMs when the
split point is the last sample of the first half (the LAG pair bridging the
halves carries the same predecessor, and the boundary sample re-scanned by
the second half contributes nothing as its LAG is NULL there). -/
theorem rawEnergia_split (A B : List MRow) (s1 : MRow) (d : Int)
    (hlastA : A.getLast? = some s1) :
    rawEnergia (A ++ B) d = rawEnergia A d + rawEnergia (s1 :: B) d := by
  rw [rawEnergia_eq_sumE, rawEnergia_eq_sumE, rawEnergia_eq_sumE,
    pairsAux_append, sumE_append, show lastD A none = some s1 from by
      rw [lastD, hlastA],
    show pairsAux none (s1 :: B) = (none, s1) :: pairsAux (some s1) B from rfl,
    sumE_cons_none]

theorem rawHoras_split (A B : List MRow) (s1 : MRow) (d : Int)
    (hlastA : A.getLast? = some s1) :
    rawHoras (A ++ B) d = rawHoras A d + rawHoras (s1 :: B) d := by
  rw [rawHoras_eq_sumH, rawHoras_eq_sumH, rawHoras_eq_sumH,
    pairsAux_append, sumH_append, show lastD A none = some s1 from by
      rw [lastD, hlastA],
    show pairsAux none (s1 :: B) = (none, s1) :: pairsAux (some s1) B from rfl,
    sumH_cons_none]

/-- Claim C9 amended: splitting an incremental rollup at a sample boundary
T1 and merging through the store reproduces the single-run rows in peak
current, firstTs and lastTs, and the unrounded energy and hours sums add up
exactly across the two runs (each run rounds its own SUM to 6 decimals
before storing, so the stored energia/horas of the two-run store can differ
from the single run by at most the two rounding steps); the sample count,
however, is overcounted: the boundary sample is scanned by both runs
(BETWEEN is closed on both ends), so the day containing it counts one extra
sample in the two-run store.  The claim as stated (identical in every
field) fails on the sample count - see the counterexample. -/
theorem rollup_watermark_resumption
    (db : List MRow) (T0 T1 T2 d : Int) (s1 : MRow)
    (hsort : db.Pairwise (fun a b => a.ts < b.ts))
    (h01 : T0 ≤ T1) (h12 : T1 ≤ T2) (hs1 : s1 ∈ db) (hts1 : s1.ts = T1) :
    ((applyRows emptyMStore (rollupQuery db T0 T2)) d).isSome
      = ((applyRows (applyRows emptyMStore (rollupQuery db T0 T1))
          (rollupQuery db T1 T2)) d).isSome ∧
    ((applyRows emptyMStore (rollupQuery db T0 T2)) d).bind StoreRow.corrente
      = ((applyRows (applyRows emptyMStore (rollupQuery db T0 T1))
          (rollupQuery db T1 T2)) d).bind StoreRow.corrente ∧
    ((applyRows emptyMStore (rollupQuery db T0 T2)) d).bind StoreRow.firstTs
      = ((applyRows (applyRows emptyMStore (rollupQuery db T0 T1))
          (rollupQuery db T1 T2)) d).bind StoreRow.firstTs ∧
    ((applyRows emptyMStore (rollupQuery db T0 T2)) d).bind StoreRow.lastTs
      = ((applyRows (applyRows emptyMStore (rollupQuery db T0 T1))
          (rollupQuery db T1 T2)) d).bind StoreRow.lastTs ∧
    ((applyRows (applyRows emptyMStore (rollupQuery db T0 T1))
        (rollupQuery db T1 T2)) d).bind StoreRow.samples
      = (((applyRows emptyMStore (rollupQuery db T0 T2)) d).bind
          StoreRow.samples).map
          (fun n => n + (if dayOf s1 = d then 1 else 0)) ∧
    rawEnergia (rollupWin db T0 T2) d
      = rawEnergia (rollupWin db T0 T1) d
        + rawEnergia (rollupWin db T1 T2) d ∧
    rawHoras (rollupWin db T0 T2) d
      = rawHoras (rollupWin db T0 T1) d + rawHoras (rollupWin db T1 T2) d := by
  have hwinS := rollupWin_split db T0 T1 T2 hsort h01 h12
  have hwin2 := rollupWin_at_boundary db T1 T2 s1 hsort hs1 hts1 h12
  set A := rollupWin db T0 T1 with hAdef
  set Bx := db.filter (fun r => decide (T1 < r.ts) && decide (r.ts ≤ T2))
    with hBdef
  have hs1A : s1 ∈ A := by
    rw [hAdef, rollupWin]
    refine List.mem_filter.mpr ⟨hs1, ?_⟩
    simp [hts1, h01]
  have hAbound : ∀ r ∈ A, r.ts ≤ T1 := by
    intro r hr
    rw [hAdef, rollupWin] at hr
    have h2 := (List.mem_filter.mp hr).2
    simp only [Bool.and_eq_true, decide_eq_true_eq] at h2
    exact h2.2
  have hBbound : ∀ r ∈ Bx, T1 < r.ts := by
    intro r hr
    rw [hBdef] at hr
    have h2 := (List.mem_filter.mp hr).2
    simp only [Bool.and_eq_true, decide_eq_true_eq] at h2
    exact h2.1
  have hsortA : A.Pairwise (fun a b => a.ts < b.ts) := by
    rw [hAdef, rollupWin]
    exact List.Pairwise.filter _ hsort
  have hlastA : A.getLast? = some s1 := by
    refine sorted_getLast A s1 hsortA hs1A ?_
    intro r hr
    rw [hts1]
    exact hAbound r hr
  have hS := rollupStore_char db T0 T2 d
  rw [hwinS] at hS
  have h1 := rollupStore_char db T0 T1 d
  rw [← hAdef] at h1
  have hD := applyRows_rollup_char
    (applyRows emptyMStore (rollupQuery db T0 T1)) db T1 T2 d
  rw [hwin2, h1] at hD
  rw [hS, hD, hwinS, hwin2]
  have hds1DA : dayOf s1 = d → d ∈ A.map dayOf :=
    fun h => List.mem_map.mpr ⟨s1, hs1A, h⟩
  by_cases hDA : d ∈ A.map dayOf
  · by_cases hD2 : d ∈ (s1 :: Bx).map dayOf
    · -- both runs touch the day: merged row against single row
      have hDS : d ∈ (A ++ Bx).map dayOf := by
        rw [List.map_append]
        exact List.mem_append_left _ hDA
      rw [if_pos hDS, if_pos hD2, if_pos hDA]
      obtain ⟨fa, hfa⟩ :=
        ofoldMin_ts_isSome (dayRows A d) (dayRows_ne_nil A d hDA)
      have hfa2 : firstTsOf A d = some fa := hfa
      refine ⟨rfl, ?_, ?_, ?_, ?_,
        rawEnergia_split A Bx s1 d hlastA, rawHoras_split A Bx s1 d hlastA⟩
      · simp only [Option.bind, upsertVal, insertRowOf, mergeRow, dayRollup]
        exact correnteOf_split A Bx s1 d hs1A
      · simp only [Option.bind, upsertVal, insertRowOf, mergeRow, dayRollup]
        rw [firstTsOf_split_presA A Bx T1 d hDA hAbound hBbound, hfa2]
        rfl
      · simp only [Option.bind, upsertVal, insertRowOf, mergeRow, dayRollup]
        exact lastTsOf_split A Bx s1 d hs1A
      · simp only [Option.bind, Option.getD, Option.map, upsertVal,
          insertRowOf, mergeRow, dayRollup, Option.some.injEq]
        rw [dayRows_append, List.length_append, dayRows_cons]
        by_cases hds : dayOf s1 = d
        · rw [if_pos hds, if_pos hds, List.length_cons]
          push_cast
          ring
        · rw [if_neg hds, if_neg hds]
          push_cast
          ring
    · -- the second run does not touch the day
      have hnods1 : ¬ dayOf s1 = d := fun h =>
        hD2 (List.mem_map.mpr ⟨s1, List.mem_cons_self s1 Bx, h⟩)
      have hnB : d ∉ Bx.map dayOf := fun h => hD2 (by
        rw [List.map_cons]
        exact List.mem_cons_of_mem _ h)
      have hDS : d ∈ (A ++ Bx).map dayOf := by
        rw [List.map_append]
        exact List.mem_append_left _ hDA
      have hBnil : dayRows Bx d = [] := dayRows_eq_nil Bx d hnB
      rw [if_pos hDS, if_neg hD2, if_pos hDA]
      refine ⟨rfl, ?_, ?_, ?_, ?_,
        rawEnergia_split A Bx s1 d hlastA, rawHoras_split A Bx s1 d hlastA⟩
      · simp only [Option.bind, insertRowOf, dayRollup]
        rw [correnteOf_append, show correnteOf Bx d = none from by
          rw [correnteOf, hBnil]; rfl, omax_none_right]
      · simp only [Option.bind, insertRowOf, dayRollup]
        exact firstTsOf_split_presA A Bx T1 d hDA hAbound hBbound
      · simp only [Option.bind, insertRowOf, dayRollup]
        rw [lastTsOf_append, show lastTsOf Bx d = none from by
          rw [lastTsOf, hBnil]; rfl, omax_none_right]
      · simp only [Option.bind, Option.map, insertRowOf, dayRollup,
          Option.some.injEq]
        rw [dayRows_append, List.length_append, hBnil, if_neg hnods1]
        simp
  · -- the first run does not touch the day
    have hnods1 : ¬ dayOf s1 = d := fun h => hDA (hds1DA h)
    have hAnil : dayRows A d = [] := dayRows_eq_nil A d hDA
    by_cases hDB : d ∈ Bx.map dayOf
    · -- only the second run touches it
      have hD2 : d ∈ (s1 :: Bx).map dayOf := by
        rw [List.map_cons]
        exact List.mem_cons_of_mem _ hDB
      have hDS : d ∈ (A ++ Bx).map dayOf := by
        rw [List.map_append]
        exact List.mem_append_right _ hDB
      rw [if_neg hDA, if_pos hDS, if_pos hD2]
      refine ⟨rfl, ?_, ?_, ?_, ?_,
        rawEnergia_split A Bx s1 d hlastA, rawHoras_split A Bx s1 d hlastA⟩
      · simp only [Option.bind, upsertVal, insertRowOf, dayRollup]
        rw [correnteOf_append, show correnteOf A d = none from by
          rw [correnteOf, hAnil]; rfl, omax_none_left, correnteOf_cons,
          if_neg hnods1]
      · simp only [Option.bind, upsertVal, insertRowOf, dayRollup]
        rw [firstTsOf_append, show firstTsOf A d = none from by
          rw [firstTsOf, hAnil]; rfl, omin_none_left, firstTsOf_cons,
          if_neg hnods1]
      · simp only [Option.bind, upsertVal, insertRowOf, dayRollup]
        rw [lastTsOf_append, show lastTsOf A d = none from by
          rw [lastTsOf, hAnil]; rfl, omax_none_left, lastTsOf_cons,
          if_neg hnods1]
      · simp only [Option.bind, Option.map, upsertVal, insertRowOf, dayRollup,
          Option.some.injEq]
        rw [dayRows_append, List.length_append, hAnil, dayRows_cons,
          if_neg hnods1, if_neg hnods1]
        simp
    · -- neither run touches the day
      have hD2 : d ∉ (s1 :: Bx).map dayOf := by
        rw [List.map_cons]
        intro h
        rcases List.mem_cons.mp h with h1 | h1
        · exact hnods1 h1.symm
        · exact hDB h1
      have hDS : d ∉ (A ++ Bx).map dayOf := by
        rw [List.map_append]
        intro h
        rcases List.mem_append.mp h with h1 | h1
        · exact hDA h1
        · exact hDB h1
      rw [if_neg hDA, if_neg hDS, if_neg hD2]
      exact ⟨rfl, rfl, rfl, rfl, rfl,
        rawEnergia_split A Bx s1 d hlastA, rawHoras_split A Bx s1 d hlastA⟩

def c9a : MRow := { ts := 0, power := none, freq := none, currMag := none }

def c9b : MRow := { ts := 100, power := none, freq := none, currMag := none }

/-- Claim C9 counterexample: two samples at t=0 and t=100, both on the same
day.  One run over [0,200] stores samples=2 for that day; a run over [0,100]
followed by a run over [100,200] re-scans the boundary sample at t=100
(BETWEEN is closed on both ends) and the additive upsert leaves samples=3,
so the split-run store is NOT identical to the single-run store. -/
theorem rollup_boundary_double_count_counterexample :
    (applyRows (applyRows emptyMStore (rollupQuery [c9a, c9b] 0 100))
        (rollupQuery [c9a, c9b] 100 200) 0).bind StoreRow.samples = some 3 ∧
    (applyRows emptyMStore (rollupQuery [c9a, c9b] 0 200) 0).bind
        StoreRow.samples = some 2 := by
  decide

theorem rollup_watermark_resumption_witness :
    List.Pairwise (fun a b : MRow => a.ts < b.ts) [c9a, c9b] ∧
    (((applyRows emptyMStore (rollupQuery [c9a, c9b] 0 200)) 0).isSome
      = ((applyRows (applyRows emptyMStore (rollupQuery [c9a, c9b] 0 100))
          (rollupQuery [c9a, c9b] 100 200)) 0).isSome ∧
    ((applyRows emptyMStore (rollupQuery [c9a, c9b] 0 200)) 0).bind
        StoreRow.corrente
      = ((applyRows (applyRows emptyMStore (rollupQuery [c9a, c9b] 0 100))
          (rollupQuery [c9a, c9b] 100 200)) 0).bind StoreRow.corrente ∧
    ((applyRows emptyMStore (rollupQuery [c9a, c9b] 0 200)) 0).bind
        StoreRow.firstTs
      = ((applyRows (applyRows emptyMStore (rollupQuery [c9a, c9b] 0 100))
          (rollupQuery [c9a, c9b] 100 200)) 0).bind StoreRow.firstTs ∧
    ((applyRows emptyMStore (rollupQuery [c9a, c9b] 0 200)) 0).bind
        StoreRow.lastTs
      = ((applyRows (applyRows emptyMStore (rollupQuery [c9a, c9b] 0 100))
          (rollupQuery [c9a, c9b] 100 200)) 0).bind StoreRow.lastTs ∧
    ((applyRows (applyRows emptyMStore (rollupQuery [c9a, c9b] 0 100))
        (rollupQuery [c9a, c9b] 100 200)) 0).bind StoreRow.samples
      = (((applyRows emptyMStore (rollupQuery [c9a, c9b] 0 200)) 0).bind
          StoreRow.samples).map
          (fun n => n + (if dayOf c9b = 0 then 1 else 0)) ∧
    rawEnergia (rollupWin [c9a, c9b] 0 200) 0
      = rawEnergia (rollupWin [c9a, c9b] 0 100) 0
        + rawEnergia (rollupWin [c9a, c9b] 100 200) 0 ∧
    rawHoras (rollupWin [c9a, c9b] 0 200) 0
      = rawHoras (rollupWin [c9a, c9b] 0 100) 0
        + rawHoras (rollupWin [c9a, c9b] 100 200) 0) := by
  have hsort : List.Pairwise (fun a b : MRow => a.ts < b.ts) [c9a, c9b] := by
    simp [List.pairwise_cons, c9a, c9b]
  exact ⟨hsort, rollup_watermark_resumption [c9a, c9b] 0 100 200 0 c9b hsort
    (by norm_num) (by norm_num)
    (List.mem_cons_of_mem c9a (List.mem_cons_self c9b []))
    (by simp [c9b])⟩

/-! ## Claim C4: the overview composer, single-period vs multi-period
(calcular_overview, calculations.py 363-419; calcular_overview_multi,
calculations.py 425-639) -/

structure MassOut where
  energia_kWh : ℚ
  corrente_max_A : Option ℚ
  agua_dosada : ℚ
  agua_real_dosada : ℚ
  resina_dosada : ℚ
  resina_real_dosada : ℚ
  num_taxadas : Int
  tempo_medio_taxada_min : ℚ
  energia_por_taxada_kWh : ℚ
  horas_operacao : ℚ
deriving DecidableEq

structure MatPrimas where
  resina_dosada : ℚ
  resina_real : ℚ
  agua_dosada : ℚ
  agua_real : ℚ
deriving DecidableEq

structure TotGerais where
  energia_kWh : ℚ
  total_taxadas : Int
  horas_operacao : ℚ
deriving DecidableEq

structure Overview where
  period : String
  masseiras : List (String × MassOut)
  materias_primas : MatPrimas
  totais_gerais : TotGerais
deriving DecidableEq

/-- agg.get(dev, default): the per-masseira aggregate dict has exactly the
keys Masseira_1 and Masseira_2. -/
def aggGet (agg : SumTot × SumTot) (dev : String) : SumTot :=
  if dev = "Masseira_1" then agg.1
  else if dev = "Masseira_2" then agg.2
  else ⟨0, 0, 0⟩

/-- Per-device assembly of the masseiras entry (calculations.py 374-398 and
593-617; the two bodies are textually identical). -/
def massOutOf (aggRes aggAgu : SumTot × SumTot) (dev : String)
    (kpi : MassKpi) : MassOut :=
  let energia := kpi.energia_kWh
  let horas := kpi.horas_operacao
  let resM := aggGet aggRes dev
  let agM := aggGet aggAgu dev
  let numTax := resM.num
  { energia_kWh := pyRound 2 energia,
    corrente_max_A := kpi.corrente_max.map (pyRound 2),
    agua_dosada := pyRound 2 agM.dosada,
    agua_real_dosada := pyRound 2 agM.realQ,
    resina_dosada := pyRound 2 resM.dosada,
    resina_real_dosada := pyRound 2 resM.realQ,
    num_taxadas := numTax,
    tempo_medio_taxada_min :=
      pyRound 2 (if 0 < numTax then horas * 60 / (numTax : ℚ) else 0),
    energia_por_taxada_kWh :=
      pyRound 2 (if 0 < numTax then energia / (numTax : ℚ) else 0),
    horas_operacao := pyRound 2 horas }

/-- Shared tail of both composers (calculations.py 374-418 and 588-637):
aggregate the two operation dicts, assemble the per-device block, the raw
material totals and the grand totals. -/
def assembleOverview (p : String) (kpi : List (String × MassKpi))
    (opsRes opsAgu : OpsDict) : Overview :=
  let aggRes := sum_ops_by_masseira opsRes
  let aggAgu := sum_ops_by_masseira opsAgu
  let totRes := sum_ops_total opsRes
  let totAgu := sum_ops_total opsAgu
  { period := p,
    masseiras := kpi.map (fun q => (q.1, massOutOf aggRes aggAgu q.1 q.2)),
    materias_primas :=
      { resina_dosada := totRes.dosada, resina_real := totRes.realQ,
        agua_dosada := totAgu.dosada, agua_real := totAgu.realQ },
    totais_gerais :=
      { energia_kWh := pyRound 2 ((kpi.map (fun q => q.2.energia_kWh)).sum),
        total_taxadas := totRes.num,
        horas_operacao :=
          pyRound 2 ((kpi.map (fun q => q.2.horas_operacao)).sum) } }

/-- Embedding of calcular_overview: single-period composition; the two
detector passes run on the period window and a parse error propagates
(resina before agua, matching the call order). -/
def calcular_overview (monthStart yearStart : Int → Int) (now : Int)
    (dbK : List KpiRow) (odbR odbA : List OpsRow) (p : String) :
    Except String Overview :=
  let b := periodo_para_datas monthStart yearStart now p
  (calcula_operacoes_descarga_tanques odbR b.1 b.2).bind (fun opsR =>
    (calcula_operacoes_descarga_tanques odbA b.1 b.2).map (fun opsA =>
      assembleOverview p (calcular_totais_masseiras dbK b.1 b.2) opsR opsA))

/-- Base window of calcular_overview_multi (calculations.py 434-437): min
start and max end over the requested periods; ISO strings compare like their
epochs. -/
def baseBounds (pb : String → Int × Int) : List String → Int × Int
  | [] => (0, 0)
  | p :: rest =>
    (rest.foldl (fun a q => min a (pb q).1) (pb p).1,
     rest.foldl (fun a q => max a (pb q).2) (pb p).2)

/-- The per-period loop of calcular_overview_multi (calculations.py
582-637): each period slices the shared base reads in memory; an exception
in a period pass aborts the whole call. -/
def overviewsFor (pb : String → Int × Int) (kpis : List KpiRow)
    (baseR baseA : List OpsRow) :
    List String → Except String (List (String × Overview))
  | [] => Except.ok []
  | p :: rest =>
    (ops_for_period baseR (pb p).1 (pb p).2).bind (fun opsR =>
      (ops_for_period baseA (pb p).1 (pb p).2).bind (fun opsA =>
        (overviewsFor pb kpis baseR baseA rest).map (fun tail =>
          (p, assembleOverview p (kpi_for_period kpis (pb p).1 (pb p).2)
            opsR opsA) :: tail)))

/-- Embedding of calcular_overview_multi: one wide fetch per source over the
union window, then per-period in-memory slicing. -/
def calcular_overview_multi (monthStart yearStart : Int → Int) (now : Int)
    (dbK : List KpiRow) (odbR odbA : List OpsRow) (ps : List String) :
    Except String (List (String × Overview)) :=
  if ps = [] then Except.ok []
  else
    let pb := periodo_para_datas monthStart yearStart now
    let bas := baseBounds pb ps
    overviewsFor pb (fetchKpiRows dbK bas.1 bas.2)
      (fetchOpsRows odbR bas.1 bas.2) (fetchOpsRows odbA bas.1 bas.2) ps

/-- Erasing the settlement-dependent datum of an emitted operation. -/
def eraseOp (o : OpRec) : OpRec :=
  { o with pesoFim := none }

def erasePair (e : List OpRec × List OpRec) : List OpRec × List OpRec :=
  (e.1.map eraseOp, e.2.map eraseOp)

def eraseOps (d : OpsDict) : OpsDict :=
  d.map (fun q => (q.1, erasePair q.2))

/-- Erasing the overview fields computed from settled ending weights. -/
def eraseSettledMass (m : MassOut) : MassOut :=
  { m with agua_real_dosada := 0, resina_real_dosada := 0 }

def eraseSettled (ov : Overview) : Overview :=
  { ov with
    masseiras := ov.masseiras.map (fun q => (q.1, eraseSettledMass q.2)),
    materias_primas :=
      { ov.materias_primas with resina_real := 0, agua_real := 0 } }

/-- All value cells of a row parse: the five signals plus the requested
quantity and the weight. -/
def rowNum (r : OpsRow) : Bool :=
  sigOk r && numOrNull r.qtdSolic && numOrNull r.peso

theorem foldl_min_le (g : String → Int) (l : List String) (a : Int) :
    l.foldl (fun b q => min b (g q)) a ≤ a := by
  induction l generalizing a with
  | nil => exact le_refl a
  | cons x rest ih =>
    exact le_trans (ih (min a (g x))) (min_le_left _ _)

theorem foldl_min_le_mem (g : String → Int) (l : List String) (a : Int)
    (q : String) (hq : q ∈ l) :
    l.foldl (fun b r => min b (g r)) a ≤ g q := by
  induction l generalizing a with
  | nil => exact absurd hq (List.not_mem_nil q)
  | cons x rest ih =>
    rcases List.mem_cons.mp hq with rfl | h
    · exact le_trans (foldl_min_le g rest (min a (g q))) (min_le_right _ _)
    · exact ih _ h

theorem le_foldl_max (g : String → Int) (l : List String) (a : Int) :
    a ≤ l.foldl (fun b q => max b (g q)) a := by
  induction l generalizing a with
  | nil => exact le_refl a
  | cons x rest ih =>
    exact le_trans (le_max_left _ _) (ih (max a (g x)))

theorem le_foldl_max_mem (g : String → Int) (l : List String) (a : Int)
    (q : String) (hq : q ∈ l) :
    g q ≤ l.foldl (fun b r => max b (g r)) a := by
  induction l generalizing a with
  | nil => exact absurd hq (List.not_mem_nil q)
  | cons x rest ih =>
    rcases List.mem_cons.mp hq with rfl | h
    · exact le_trans (le_max_right _ _) (le_foldl_max g rest (max a (g q)))
    · exact ih _ h

/-- Every requested period's window is inside the union base window. -/
theorem baseBounds_le (pb : String → Int × Int) (ps : List String)
    (p : String) (hp : p ∈ ps) :
    (baseBounds pb ps).1 ≤ (pb p).1 ∧ (pb p).2 ≤ (baseBounds pb ps).2 := by
  cases ps with
  | nil => exact absurd hp (List.not_mem_nil p)
  | cons p0 rest =>
    rcases List.mem_cons.mp hp with rfl | h
    · exact ⟨foldl_min_le _ rest _, le_foldl_max _ rest _⟩
    · exact ⟨foldl_min_le_mem _ rest _ p h, le_foldl_max_mem _ rest _ p h⟩

/-! ### Parse and lookahead totality on clean rows -/

theorem toOptIntPy_ok (v : SVal) (h : numOrNull v = true) :
    ∃ x, toOptIntPy v = Except.ok x := by
  cases v with
  | null => exact ⟨none, rfl⟩
  | num q => exact ⟨some (ratTrunc q), rfl⟩
  | text s => simp [numOrNull] at h

theorem toIntDefPy_ok (v : SVal) (h : numOrNull v = true) :
    ∃ x, toIntDefPy v = Except.ok x := by
  cases v with
  | null => exact ⟨0, rfl⟩
  | num q => exact ⟨ratTrunc q, rfl⟩
  | text s => simp [numOrNull] at h

theorem toOptFloatPy_ok (v : SVal) (h : numOrNull v = true) :
    ∃ x, toOptFloatPy v = Except.ok x := by
  cases v with
  | null => exact ⟨none, rfl⟩
  | num q => exact ⟨some q, rfl⟩
  | text s => simp [numOrNull] at h

/-- The single-period settlement scan never raises when every weight cell in
the scanned rows parses. -/
theorem lookScan_ok (dev : String) (alvo : Int) (fb : Option ℚ)
    (rows : List OpsRow) (h : ∀ r ∈ rows, numOrNull r.peso = true) :
    ∃ v, lookScan dev alvo fb rows = Except.ok v := by
  induction rows with
  | nil => exact ⟨fb, rfl⟩
  | cons r rest ih =>
    have hr := h r (List.mem_cons_self r rest)
    have hrest : ∀ x ∈ rest, numOrNull x.peso = true :=
      fun x hx => h x (List.mem_cons_of_mem r hx)
    simp only [lookScan]
    by_cases hdev : r.dev = dev
    · rw [if_pos hdev]
      by_cases hts : r.ts ≥ alvo
      · rw [if_pos hts]
        cases hp : r.peso with
        | null => exact ⟨fb, rfl⟩
        | num q => exact ⟨some q, rfl⟩
        | text s => rw [hp] at hr; simp [numOrNull] at hr
      · rw [if_neg hts]
        exact ih hrest
    · rw [if_neg hdev]
      exact ⟨fb, rfl⟩

/-- The multi-period settlement scan never raises when every weight cell in
the base rows parses. -/
theorem lookScanMulti_ok (dev : String) (ts alvo : Int) (fb : Option ℚ)
    (rows : List OpsRow) (st : Bool)
    (h : ∀ r ∈ rows, numOrNull r.peso = true) :
    ∃ v, lookScanMulti dev ts alvo fb rows st = Except.ok v := by
  induction rows generalizing st with
  | nil => exact ⟨fb, rfl⟩
  | cons r rest ih =>
    have hr := h r (List.mem_cons_self r rest)
    have hrest : ∀ x ∈ rest, numOrNull x.peso = true :=
      fun x hx => h x (List.mem_cons_of_mem r hx)
    simp only [lookScanMulti]
    split
    · exact ih true hrest
    · split
      · exact ih st hrest
      · split
        · exact ⟨fb, rfl⟩
        · split
          · cases hp : r.peso with
            | null => exact ⟨fb, rfl⟩
            | num q => exact ⟨some q, rfl⟩
            | text s => rw [hp] at hr; simp [numOrNull] at hr
          · exact ih st hrest

theorem lookaheadSingle_ok (rows : List OpsRow)
    (h : ∀ r ∈ rows, numOrNull r.peso = true) (ts : Int) (dev : String)
    (fb : Option ℚ) : ∃ v, lookaheadSingle rows ts dev fb = Except.ok v := by
  rw [lookaheadSingle]
  exact lookScan_ok dev (ts + 10) fb _
    (fun r hr => h r (List.mem_of_mem_drop hr))

theorem lookMulti_ok (base : List OpsRow)
    (h : ∀ r ∈ base, numOrNull r.peso = true) (ts : Int) (dev : String)
    (fb : Option ℚ) : ∃ v, lookMulti base ts dev fb = Except.ok v := by
  rw [lookMulti]
  exact lookScanMulti_ok dev ts (ts + 10) fb base false h

/-! ### The erasure is a congruence for the dict operations -/

theorem dictGet_map_val {α β : Type} (f : α → β) (d : List (String × α))
    (k : String) :
    dictGet (d.map (fun q => (q.1, f q.2))) k = (dictGet d k).map f := by
  induction d with
  | nil => rfl
  | cons q rest ih =>
    rw [List.map_cons]
    by_cases hk : q.1 = k
    · rw [dictGet, List.find?_cons_of_pos _ (by simpa using hk),
        dictGet, List.find?_cons_of_pos _ (by simpa using hk)]
      rfl
    · rw [dictGet, List.find?_cons_of_neg _ (by simpa using hk),
        dictGet, List.find?_cons_of_neg _ (by simpa using hk)]
      exact ih

theorem dictGetD_eraseOps (res : OpsDict) (dev : String) :
    dictGetD (eraseOps res) dev ([], [])
      = erasePair (dictGetD res dev ([], [])) := by
  rw [dictGetD, dictGetD, eraseOps, dictGet_map_val erasePair res dev]
  cases dictGet res dev <;> rfl

theorem eraseOps_dictSet (d : OpsDict) (k : String)
    (v : List OpRec × List OpRec) :
    eraseOps (dictSet d k v) = dictSet (eraseOps d) k (erasePair v) := by
  have hany : (eraseOps d).any (fun p => p.1 = k) = d.any (fun p => p.1 = k) := by
    rw [eraseOps, List.any_map]
    rfl
  by_cases h : d.any (fun p => p.1 = k) = true
  · rw [eraseOps, dictSet, if_pos h, dictSet, hany, if_pos h, eraseOps,
      List.map_map, List.map_map]
    congr 1
    funext q
    by_cases hq : q.1 = k <;> simp [hq, Function.comp]
  · rw [eraseOps, dictSet, if_neg h, dictSet, hany, if_neg h, eraseOps,
      List.map_append]
    rfl

theorem eraseOps_dictPop (d : OpsDict) (k : String) :
    eraseOps (dictPop d k) = dictPop (eraseOps d) k := by
  rw [eraseOps, eraseOps, dictPop, dictPop, List.filter_map]
  rfl

/-- Appending two closes that differ only in the settled weight preserves
erased equality of the result dicts. -/
theorem eraseOps_resultAppend (res1 res2 : OpsDict) (dev : String)
    (o1 o2 : OpenOp) (hres : eraseOps res1 = eraseOps res2)
    (hdest : o1.destino = o2.destino)
    (ho : eraseOp (toOpRec o1) = eraseOp (toOpRec o2)) :
    eraseOps (resultAppend res1 dev o1)
      = eraseOps (resultAppend res2 dev o2) := by
  have he : erasePair (dictGetD res1 dev ([], []))
      = erasePair (dictGetD res2 dev ([], [])) := by
    rw [← dictGetD_eraseOps, ← dictGetD_eraseOps, hres]
  have he1 := congrArg Prod.fst he
  have he2 := congrArg Prod.snd he
  simp only [erasePair] at he1 he2
  rw [resultAppend, resultAppend, ← hdest]
  by_cases hd : o1.destino = "Masseira_1"
  · rw [if_pos hd, if_pos hd, eraseOps_dictSet, eraseOps_dictSet, hres]
    have harg : erasePair ((dictGetD res1 dev ([], [])).1 ++ [toOpRec o1],
          (dictGetD res1 dev ([], [])).2)
        = erasePair ((dictGetD res2 dev ([], [])).1 ++ [toOpRec o2],
          (dictGetD res2 dev ([], [])).2) := by
      simp only [erasePair, List.map_append]
      rw [he1, he2]
      simp [ho]
    rw [harg]
  · rw [if_neg hd, if_neg hd, eraseOps_dictSet, eraseOps_dictSet, hres]
    have harg : erasePair ((dictGetD res1 dev ([], [])).1,
          (dictGetD res1 dev ([], [])).2 ++ [toOpRec o1])
        = erasePair ((dictGetD res2 dev ([], [])).1,
          (dictGetD res2 dev ([], [])).2 ++ [toOpRec o2]) := by
      simp only [erasePair, List.map_append]
      rw [he1, he2]
      simp [ho]
    rw [harg]

/-- Simulation relation between two detector runs that differ only in the
settlement lookahead: identical control state (edge memory and open
operations), result dicts equal after erasing the settled weights. -/
def Rrel (st1 st2 : DetState) : Prop :=
  st1.lastOp = st2.lastOp ∧ st1.aberta = st2.aberta ∧
    eraseOps st1.resultado = eraseOps st2.resultado

set_option maxRecDepth 16384 in
theorem opsStep_sim
    (look1 look2 : Int → String → Option ℚ → Except String (Option ℚ))
    (st1 st2 : DetState) (r : OpsRow) (hrow : rowNum r = true)
    (hl1 : ∀ ts dev fb, ∃ v, look1 ts dev fb = Except.ok v)
    (hl2 : ∀ ts dev fb, ∃ v, look2 ts dev fb = Except.ok v)
    (hR : Rrel st1 st2) :
    ∃ t1 t2, opsStep look1 st1 r = Except.ok t1 ∧
      opsStep look2 st2 r = Except.ok t2 ∧ Rrel t1 t2 := by
  simp only [rowNum, sigOk, Bool.and_eq_true] at hrow
  obtain ⟨⟨⟨⟨⟨⟨h1, h2⟩, h3⟩, h4⟩, h5⟩, h6⟩, h7⟩ := hrow
  obtain ⟨op, hop⟩ := toOptIntPy_ok r.opAnd h1
  obtain ⟨dv, hdv⟩ := toIntDefPy_ok r.dSel h2
  obtain ⟨bv, hbv⟩ := toIntDefPy_ok r.bLiga h3
  obtain ⟨w1, hw1⟩ := toIntDefPy_ok r.v1 h4
  obtain ⟨w2, hw2⟩ := toIntDefPy_ok r.v2 h5
  obtain ⟨qv, hqv⟩ := toOptFloatPy_ok r.qtdSolic h6
  obtain ⟨pv, hpv⟩ := toOptFloatPy_ok r.peso h7
  obtain ⟨f1, hf1⟩ : ∃ f : Int → String → Option ℚ → Option ℚ,
      ∀ ts dev fb, look1 ts dev fb = Except.ok (f ts dev fb) :=
    ⟨fun ts dev fb => (hl1 ts dev fb).choose,
     fun ts dev fb => (hl1 ts dev fb).choose_spec⟩
  obtain ⟨f2, hf2⟩ : ∃ f : Int → String → Option ℚ → Option ℚ,
      ∀ ts dev fb, look2 ts dev fb = Except.ok (f ts dev fb) :=
    ⟨fun ts dev fb => (hl2 ts dev fb).choose,
     fun ts dev fb => (hl2 ts dev fb).choose_spec⟩
  obtain ⟨res1, lo1, ab1⟩ := st1
  obtain ⟨res2, lo2, ab2⟩ := st2
  obtain ⟨hlo, hab, hres⟩ := hR
  have hlo2 : lo1 = lo2 := hlo
  have hab2 : ab1 = ab2 := hab
  subst hlo2
  subst hab2
  have hres2 : eraseOps res1 = eraseOps res2 := hres
  cases hp : r.peso with
  | text s =>
    rw [hp] at h7
    simp [numOrNull] at h7
  | null =>
    rw [opsStep, opsStep]
    simp only [hop, hdv, hbv, hw1, hw2, hqv, hp,
      show toOptFloatPy SVal.null = Except.ok none from rfl,
      hf1, hf2, bind, Except.bind, pure, Except.pure]
    by_cases hc1 : op ≠ none ∧ (dictGet lo1 r.dev).getD 0 = 0 ∧ op = some 1
        ∧ dv = 1 ∧ bv = 1
    · simp only [if_pos hc1]
      split
      · rename_i o heq
        try simp only [heq, ite_self]
        by_cases hc3 : op ≠ none ∧ (dictGet lo1 r.dev).getD 0 = 1
            ∧ op = some 0
        · exfalso
          have ha := hc1.2.1
          have hb := hc3.2.1
          omega
        · simp only [if_neg hc3]
          cases op with
          | none => exact (hc1.1 rfl).elim
          | some opv => exact ⟨_, _, rfl, rfl, rfl, rfl, hres2⟩
      · rename_i heq
        try simp only [heq]
        by_cases hc3 : op ≠ none ∧ (dictGet lo1 r.dev).getD 0 = 1
            ∧ op = some 0
        · simp only [if_pos hc3]
          cases op with
          | none => exact (hc3.1 rfl).elim
          | some opv => exact ⟨_, _, rfl, rfl, rfl, rfl, hres2⟩
        · simp only [if_neg hc3]
          cases op with
          | none => exact ⟨_, _, rfl, rfl, rfl, rfl, hres2⟩
          | some opv => exact ⟨_, _, rfl, rfl, rfl, rfl, hres2⟩
    · simp only [if_neg hc1]
      split
      · rename_i o heq
        try simp only [heq, ite_self]
        by_cases hc3 : op ≠ none ∧ (dictGet lo1 r.dev).getD 0 = 1
            ∧ op = some 0
        · simp only [if_pos hc3]
          cases op with
          | none => exact (hc3.1 rfl).elim
          | some opv =>
            refine ⟨_, _, rfl, rfl, rfl, rfl, ?_⟩
            exact eraseOps_resultAppend res1 res2 r.dev _ _ hres2 rfl rfl
        · simp only [if_neg hc3]
          cases op with
          | none => exact ⟨_, _, rfl, rfl, rfl, rfl, hres2⟩
          | some opv => exact ⟨_, _, rfl, rfl, rfl, rfl, hres2⟩
      · rename_i heq
        try simp only [heq]
        by_cases hc3 : op ≠ none ∧ (dictGet lo1 r.dev).getD 0 = 1
            ∧ op = some 0
        · simp only [if_pos hc3]
          cases op with
          | none => exact (hc3.1 rfl).elim
          | some opv => exact ⟨_, _, rfl, rfl, rfl, rfl, hres2⟩
        · simp only [if_neg hc3]
          cases op with
          | none => exact ⟨_, _, rfl, rfl, rfl, rfl, hres2⟩
          | some opv => exact ⟨_, _, rfl, rfl, rfl, rfl, hres2⟩
  | num a =>
    rw [opsStep, opsStep]
    simp only [hop, hdv, hbv, hw1, hw2, hqv, hp,
      show toOptFloatPy (SVal.num a) = Except.ok (some a) from rfl,
      hf1, hf2, bind, Except.bind, pure, Except.pure]
    by_cases hc1 : op ≠ none ∧ (dictGet lo1 r.dev).getD 0 = 0 ∧ op = some 1
        ∧ dv = 1 ∧ bv = 1
    · simp only [if_pos hc1]
      split
      · rename_i o heq
        try simp only [heq, if_pos hc1.2.2.1]
        try simp only [if_pos hc1.2.2.1]
        by_cases hc3 : op ≠ none ∧ (dictGet lo1 r.dev).getD 0 = 1
            ∧ op = some 0
        · exfalso
          have ha := hc1.2.1
          have hb := hc3.2.1
          omega
        · simp only [if_neg hc3]
          cases op with
          | none => exact (hc1.1 rfl).elim
          | some opv => exact ⟨_, _, rfl, rfl, rfl, rfl, hres2⟩
      · rename_i heq
        try simp only [heq]
        by_cases hc3 : op ≠ none ∧ (dictGet lo1 r.dev).getD 0 = 1
            ∧ op = some 0
        · simp only [if_pos hc3]
          cases op with
          | none => exact (hc3.1 rfl).elim
          | some opv => exact ⟨_, _, rfl, rfl, rfl, rfl, hres2⟩
        · simp only [if_neg hc3]
          cases op with
          | none => exact ⟨_, _, rfl, rfl, rfl, rfl, hres2⟩
          | some opv => exact ⟨_, _, rfl, rfl, rfl, rfl, hres2⟩
    · simp only [if_neg hc1]
      split
      · rename_i o heq
        try simp only [heq]
        by_cases hc2 : op = some 1
        · simp only [if_pos hc2]
          by_cases hc3 : op ≠ none ∧ (dictGet lo1 r.dev).getD 0 = 1
              ∧ op = some 0
          · exfalso
            rw [hc2] at hc3
            exact absurd hc3.2.2 (by simp)
          · simp only [if_neg hc3]
            cases op with
            | none => simp at hc2
            | some opv => exact ⟨_, _, rfl, rfl, rfl, rfl, hres2⟩
        · simp only [if_neg hc2]
          by_cases hc3 : op ≠ none ∧ (dictGet lo1 r.dev).getD 0 = 1
              ∧ op = some 0
          · simp only [if_pos hc3]
            cases op with
            | none => exact (hc3.1 rfl).elim
            | some opv =>
              refine ⟨_, _, rfl, rfl, rfl, rfl, ?_⟩
              exact eraseOps_resultAppend res1 res2 r.dev _ _ hres2 rfl rfl
          · simp only [if_neg hc3]
            cases op with
            | none => exact ⟨_, _, rfl, rfl, rfl, rfl, hres2⟩
            | some opv => exact ⟨_, _, rfl, rfl, rfl, rfl, hres2⟩
      · rename_i heq
        try simp only [heq]
        by_cases hc3 : op ≠ none ∧ (dictGet lo1 r.dev).getD 0 = 1
            ∧ op = some 0
        · simp only [if_pos hc3]
          cases op with
          | none => exact (hc3.1 rfl).elim
          | some opv => exact ⟨_, _, rfl, rfl, rfl, rfl, hres2⟩
        · simp only [if_neg hc3]
          cases op with
          | none => exact ⟨_, _, rfl, rfl, rfl, rfl, hres2⟩
          | some opv => exact ⟨_, _, rfl, rfl, rfl, rfl, hres2⟩

theorem opsLoop_sim
    (look1 look2 : Int → String → Option ℚ → Except String (Option ℚ))
    (rows : List OpsRow) (st1 st2 : DetState)
    (hrows : ∀ r ∈ rows, rowNum r = true)
    (hl1 : ∀ ts dev fb, ∃ v, look1 ts dev fb = Except.ok v)
    (hl2 : ∀ ts dev fb, ∃ v, look2 ts dev fb = Except.ok v)
    (hR : Rrel st1 st2) :
    ∃ t1 t2, opsLoop look1 rows st1 = Except.ok t1 ∧
      opsLoop look2 rows st2 = Except.ok t2 ∧ Rrel t1 t2 := by
  induction rows generalizing st1 st2 with
  | nil => exact ⟨st1, st2, rfl, rfl, hR⟩
  | cons r rest ih =>
    obtain ⟨u1, u2, hu1, hu2, hRu⟩ := opsStep_sim look1 look2 st1 st2 r
      (hrows r (List.mem_cons_self r rest)) hl1 hl2 hR
    obtain ⟨t1, t2, ht1, ht2, hRt⟩ := ih u1 u2
      (fun x hx => hrows x (List.mem_cons_of_mem r hx)) hRu
    exact ⟨t1, t2, by simp [opsLoop, hu1, bind, Except.bind, ht1],
      by simp [opsLoop, hu2, bind, Except.bind, ht2], hRt⟩

theorem forceClose_erase (ab : List (String × OpenOp)) (res1 res2 : OpsDict)
    (hres : eraseOps res1 = eraseOps res2) :
    eraseOps (ab.foldl (fun res p => resultAppend res p.1 p.2) res1)
      = eraseOps (ab.foldl (fun res p => resultAppend res p.1 p.2) res2) := by
  induction ab generalizing res1 res2 with
  | nil => exact hres
  | cons p rest ih =>
    exact ih _ _ (eraseOps_resultAppend res1 res2 p.1 p.2 p.2 hres rfl rfl)

/-- Force-closing two related runs yields erased-equal operation dicts. -/
theorem forceClose_sim (st1 st2 : DetState) (hR : Rrel st1 st2) :
    eraseOps (forceClose st1) = eraseOps (forceClose st2) := by
  obtain ⟨h1, h2, h3⟩ := hR
  rw [forceClose, forceClose, h2]
  exact forceClose_erase st2.aberta _ _ h3

/-- The in-loop period skip of ops_for_period equals running the plain loop
on the period-filtered rows (the skip touches no state). -/
theorem opsLoopSkip_eq (base : List OpsRow) (sEp eEp : Int)
    (l : List OpsRow) (st : DetState) :
    opsLoopSkip base sEp eEp l st
      = opsLoop (lookMulti base)
          (l.filter (fun r => !(decide (r.ts < sEp) || decide (r.ts > eEp))))
          st := by
  induction l generalizing st with
  | nil => rfl
  | cons r rest ih =>
    simp only [opsLoopSkip]
    by_cases hc : (decide (r.ts < sEp) || decide (r.ts > eEp)) = true
    · rw [if_pos hc, List.filter_cons_of_neg (by simp [hc])]
      exact ih st
    · have hcf : (decide (r.ts < sEp) || decide (r.ts > eEp)) = false :=
        Bool.eq_false_iff.mpr hc
      rw [if_neg hc, List.filter_cons_of_pos (by simp [hcf])]
      cases hstep : opsStep (lookMulti base) st r with
      | error e => simp [opsLoop, hstep, bind, Except.bind]
      | ok st2 => simp [opsLoop, hstep, bind, Except.bind, ih st2]

/-- Slicing the wide ops fetch by a contained period window gives exactly
the period fetch. -/
theorem fetchOps_slice (odb : List OpsRow) (basS basE s e : Int)
    (hs : basS ≤ s) (he : e ≤ basE) :
    (fetchOpsRows odb basS basE).filter
        (fun r => !(decide (r.ts < s) || decide (r.ts > e)))
      = fetchOpsRows odb s e := by
  rw [fetchOpsRows, fetchOpsRows, List.filter_filter]
  apply List.filter_congr
  intro r _
  by_cases h1 : s ≤ r.ts
  · by_cases h2 : r.ts ≤ e
    · have hb1 : basS ≤ r.ts := by omega
      have hb2 : r.ts ≤ basE := by omega
      have hn1 : ¬(r.ts < s) := by omega
      have hn2 : ¬(r.ts > e) := by omega
      simp [h1, h2, hb1, hb2, hn1, hn2]
    · have hn2 : r.ts > e := by omega
      simp [h2, hn2]
  · have hn1 : r.ts < s := by omega
    simp [h1, hn1]

/-- Slicing the wide KPI fetch by a contained period window gives exactly
the period fetch. -/
theorem fetchKpi_slice (dbK : List KpiRow) (basS basE s e : Int)
    (hs : basS ≤ s) (he : e ≤ basE) :
    (fetchKpiRows dbK basS basE).filter
        (fun r => !(decide (r.ts < s) || decide (r.ts > e)))
      = fetchKpiRows dbK s e := by
  rw [fetchKpiRows, fetchKpiRows, List.filter_filter]
  apply List.filter_congr
  intro r _
  by_cases h1 : s ≤ r.ts
  · by_cases h2 : r.ts ≤ e
    · have hb1 : basS ≤ r.ts := by omega
      have hb2 : r.ts ≤ basE := by omega
      have hn1 : ¬(r.ts < s) := by omega
      have hn2 : ¬(r.ts > e) := by omega
      simp [h1, h2, hb1, hb2, hn1, hn2]
    · have hn2 : r.ts > e := by omega
      simp [h2, hn2]
  · have hn1 : r.ts < s := by omega
    simp [h1, hn1]

theorem foldl_skip (l : List KpiRow) (sEp eEp : Int) (st : KpiState) :
    l.foldl (fun st r => if r.ts < sEp || r.ts > eEp then st else kpiStep st r)
        st
      = (l.filter
          (fun r => !(decide (r.ts < sEp) || decide (r.ts > eEp)))).foldl
          kpiStep st := by
  induction l generalizing st with
  | nil => rfl
  | cons r rest ih =>
    simp only [List.foldl_cons]
    by_cases hc : (decide (r.ts < sEp) || decide (r.ts > eEp)) = true
    · rw [if_pos hc, List.filter_cons_of_neg (by simp [hc])]
      exact ih st
    · have hcf : (decide (r.ts < sEp) || decide (r.ts > eEp)) = false :=
        Bool.eq_false_iff.mpr hc
      rw [if_neg hc, List.filter_cons_of_pos (by simp [hcf]),
        List.foldl_cons]
      exact ih (kpiStep st r)

/-- The KPI slice of the multi-period composer coincides exactly with the
single-period KPI computation. -/
theorem kpi_for_period_eq (dbK : List KpiRow) (basS basE s e : Int)
    (hs : basS ≤ s) (he : e ≤ basE) :
    kpi_for_period (fetchKpiRows dbK basS basE) s e
      = calcular_totais_masseiras dbK s e := by
  rw [kpi_for_period, calcular_totais_masseiras, kpiAggregate, foldl_skip,
    fetchKpi_slice dbK basS basE s e hs he]

/-- On clean rows, the single-period detector and the multi-period slice
both succeed and agree after erasing the settled ending weights. -/
theorem ops_slice_sim (odb : List OpsRow) (basS basE s e : Int)
    (hs : basS ≤ s) (he : e ≤ basE) (hok : ∀ r ∈ odb, rowNum r = true) :
    ∃ d1 d2, calcula_operacoes_descarga_tanques odb s e = Except.ok d1 ∧
      ops_for_period (fetchOpsRows odb basS basE) s e = Except.ok d2 ∧
      eraseOps d1 = eraseOps d2 := by
  have hrows : ∀ r ∈ fetchOpsRows odb s e, rowNum r = true :=
    fun r hr => hok r (List.mem_of_mem_filter hr)
  have hbase : ∀ r ∈ fetchOpsRows odb basS basE, rowNum r = true :=
    fun r hr => hok r (List.mem_of_mem_filter hr)
  have hpeso1 : ∀ r ∈ fetchOpsRows odb s e, numOrNull r.peso = true := by
    intro r hr
    have h := hrows r hr
    simp only [rowNum, Bool.and_eq_true] at h
    exact h.2
  have hpeso2 : ∀ r ∈ fetchOpsRows odb basS basE, numOrNull r.peso = true := by
    intro r hr
    have h := hbase r hr
    simp only [rowNum, Bool.and_eq_true] at h
    exact h.2
  obtain ⟨t1, t2, ht1, ht2, hRt⟩ := opsLoop_sim
    (lookaheadSingle (fetchOpsRows odb s e))
    (lookMulti (fetchOpsRows odb basS basE))
    (fetchOpsRows odb s e) initDetState initDetState hrows
    (fun ts dev fb => lookaheadSingle_ok _ hpeso1 ts dev fb)
    (fun ts dev fb => lookMulti_ok _ hpeso2 ts dev fb)
    ⟨rfl, rfl, rfl⟩
  refine ⟨forceClose t1, forceClose t2, ?_, ?_, forceClose_sim t1 t2 hRt⟩
  · simp [calcula_operacoes_descarga_tanques, ht1, bind, Except.bind, pure,
      Except.pure]
  · rw [ops_for_period, opsLoopSkip_eq,
      fetchOps_slice odb basS basE s e hs he]
    simp [ht2, bind, Except.bind, pure, Except.pure]

/-! ### The aggregate counts and requested quantities ignore settled
weights -/

theorem sumOpsList_cons (acc : SumTot) (o : OpRec) (l : List OpRec) :
    sumOpsList acc (o :: l)
      = sumOpsList ⟨acc.dosada + o.qntSolicitada.getD 0,
          acc.realQ + (o.pesoInicio.getD 0 - o.pesoFim.getD 0),
          acc.num + 1⟩ l := rfl

theorem sumOpsList_dn (acc1 acc2 : SumTot) (l : List OpRec)
    (hd : acc1.dosada = acc2.dosada) (hn : acc1.num = acc2.num) :
    (sumOpsList acc1 (l.map eraseOp)).dosada = (sumOpsList acc2 l).dosada ∧
    (sumOpsList acc1 (l.map eraseOp)).num = (sumOpsList acc2 l).num := by
  induction l generalizing acc1 acc2 with
  | nil => exact ⟨hd, hn⟩
  | cons o rest ih =>
    rw [List.map_cons, sumOpsList_cons, sumOpsList_cons]
    refine ih _ _ ?_ ?_
    · simp [eraseOp, hd]
    · simp [hn]

theorem tot_fold_dn (d : OpsDict) (acc1 acc2 : SumTot)
    (hd : acc1.dosada = acc2.dosada) (hn : acc1.num = acc2.num) :
    (((eraseOps d).foldl
        (fun acc p => sumOpsList (sumOpsList acc p.2.1) p.2.2) acc1).dosada
      = ((d.foldl
        (fun acc p => sumOpsList (sumOpsList acc p.2.1) p.2.2) acc2).dosada))
    ∧ (((eraseOps d).foldl
        (fun acc p => sumOpsList (sumOpsList acc p.2.1) p.2.2) acc1).num
      = ((d.foldl
        (fun acc p => sumOpsList (sumOpsList acc p.2.1) p.2.2) acc2).num)) := by
  induction d generalizing acc1 acc2 with
  | nil => exact ⟨hd, hn⟩
  | cons q rest ih =>
    rw [show eraseOps (q :: rest)
        = (q.1, erasePair q.2) :: eraseOps rest from rfl,
      List.foldl_cons, List.foldl_cons]
    have hs1 := sumOpsList_dn acc1 acc2 q.2.1 hd hn
    have hs2 := sumOpsList_dn (sumOpsList acc1 (q.2.1.map eraseOp))
      (sumOpsList acc2 q.2.1) q.2.2 hs1.1 hs1.2
    exact ih _ _ hs2.1 hs2.2

theorem sum_ops_total_dn (d1 d2 : OpsDict) (h : eraseOps d1 = eraseOps d2) :
    (sum_ops_total d1).dosada = (sum_ops_total d2).dosada ∧
    (sum_ops_total d1).num = (sum_ops_total d2).num := by
  obtain ⟨e1d, e1n⟩ := tot_fold_dn d1 ⟨0, 0, 0⟩ ⟨0, 0, 0⟩ rfl rfl
  obtain ⟨e2d, e2n⟩ := tot_fold_dn d2 ⟨0, 0, 0⟩ ⟨0, 0, 0⟩ rfl rfl
  rw [h] at e1d e1n
  exact ⟨congrArg (pyRound 2) (e1d.symm.trans e2d), e1n.symm.trans e2n⟩

theorem by_m_fold_dn (d : OpsDict) (acc1 acc2 : SumTot × SumTot)
    (h1 : acc1.1.dosada = acc2.1.dosada) (h2 : acc1.1.num = acc2.1.num)
    (h3 : acc1.2.dosada = acc2.2.dosada) (h4 : acc1.2.num = acc2.2.num) :
    (((eraseOps d).foldl (fun acc p =>
        (sumOpsList acc.1 p.2.1, sumOpsList acc.2 p.2.2)) acc1).1.dosada
      = ((d.foldl (fun acc p =>
        (sumOpsList acc.1 p.2.1, sumOpsList acc.2 p.2.2)) acc2).1.dosada))
    ∧ (((eraseOps d).foldl (fun acc p =>
        (sumOpsList acc.1 p.2.1, sumOpsList acc.2 p.2.2)) acc1).1.num
      = ((d.foldl (fun acc p =>
        (sumOpsList acc.1 p.2.1, sumOpsList acc.2 p.2.2)) acc2).1.num))
    ∧ (((eraseOps d).foldl (fun acc p =>
        (sumOpsList acc.1 p.2.1, sumOpsList acc.2 p.2.2)) acc1).2.dosada
      = ((d.foldl (fun acc p =>
        (sumOpsList acc.1 p.2.1, sumOpsList acc.2 p.2.2)) acc2).2.dosada))
    ∧ (((eraseOps d).foldl (fun acc p =>
        (sumOpsList acc.1 p.2.1, sumOpsList acc.2 p.2.2)) acc1).2.num
      = ((d.foldl (fun acc p =>
        (sumOpsList acc.1 p.2.1, sumOpsList acc.2 p.2.2)) acc2).2.num)) := by
  induction d generalizing acc1 acc2 with
  | nil => exact ⟨h1, h2, h3, h4⟩
  | cons q rest ih =>
    rw [show eraseOps (q :: rest)
        = (q.1, erasePair q.2) :: eraseOps rest from rfl,
      List.foldl_cons, List.foldl_cons]
    have hs1 := sumOpsList_dn acc1.1 acc2.1 q.2.1 h1 h2
    have hs2 := sumOpsList_dn acc1.2 acc2.2 q.2.2 h3 h4
    exact ih _ _ hs1.1 hs1.2 hs2.1 hs2.2

theorem sum_ops_by_m_dn (d1 d2 : OpsDict) (h : eraseOps d1 = eraseOps d2) :
    (sum_ops_by_masseira d1).1.dosada = (sum_ops_by_masseira d2).1.dosada ∧
    (sum_ops_by_masseira d1).1.num = (sum_ops_by_masseira d2).1.num ∧
    (sum_ops_by_masseira d1).2.dosada = (sum_ops_by_masseira d2).2.dosada ∧
    (sum_ops_by_masseira d1).2.num = (sum_ops_by_masseira d2).2.num := by
  obtain ⟨e1a, e1b, e1c, e1d⟩ :=
    by_m_fold_dn d1 (⟨0, 0, 0⟩, ⟨0, 0, 0⟩) (⟨0, 0, 0⟩, ⟨0, 0, 0⟩) rfl rfl rfl rfl
  obtain ⟨e2a, e2b, e2c, e2d⟩ :=
    by_m_fold_dn d2 (⟨0, 0, 0⟩, ⟨0, 0, 0⟩) (⟨0, 0, 0⟩, ⟨0, 0, 0⟩) rfl rfl rfl rfl
  rw [h] at e1a e1b e1c e1d
  exact ⟨congrArg (pyRound 2) (e1a.symm.trans e2a), e1b.symm.trans e2b,
    congrArg (pyRound 2) (e1c.symm.trans e2c), e1d.symm.trans e2d⟩

theorem aggGet_dn (a1 a2 : SumTot × SumTot) (dev : String)
    (h1 : a1.1.dosada = a2.1.dosada) (h2 : a1.1.num = a2.1.num)
    (h3 : a1.2.dosada = a2.2.dosada) (h4 : a1.2.num = a2.2.num) :
    (aggGet a1 dev).dosada = (aggGet a2 dev).dosada ∧
    (aggGet a1 dev).num = (aggGet a2 dev).num := by
  rw [aggGet, aggGet]
  by_cases hd : dev = "Masseira_1"
  · rw [if_pos hd, if_pos hd]
    exact ⟨h1, h2⟩
  · rw [if_neg hd, if_neg hd]
    by_cases hd2 : dev = "Masseira_2"
    · rw [if_pos hd2, if_pos hd2]
      exact ⟨h3, h4⟩
    · rw [if_neg hd2, if_neg hd2]
      exact ⟨rfl, rfl⟩

theorem massOut_erase_congr (aR1 aA1 aR2 aA2 : SumTot × SumTot)
    (dev : String) (k : MassKpi)
    (hR1 : aR1.1.dosada = aR2.1.dosada) (hR2 : aR1.1.num = aR2.1.num)
    (hR3 : aR1.2.dosada = aR2.2.dosada) (hR4 : aR1.2.num = aR2.2.num)
    (hA1 : aA1.1.dosada = aA2.1.dosada) (hA2 : aA1.1.num = aA2.1.num)
    (hA3 : aA1.2.dosada = aA2.2.dosada) (hA4 : aA1.2.num = aA2.2.num) :
    eraseSettledMass (massOutOf aR1 aA1 dev k)
      = eraseSettledMass (massOutOf aR2 aA2 dev k) := by
  obtain ⟨hRd, hRn⟩ := aggGet_dn aR1 aR2 dev hR1 hR2 hR3 hR4
  obtain ⟨hAd, hAn⟩ := aggGet_dn aA1 aA2 dev hA1 hA2 hA3 hA4
  rw [massOutOf, massOutOf, eraseSettledMass, eraseSettledMass, hRd, hAd,
    hRn]

/-- The two composed overviews agree on every field that does not come from
a settled ending weight. -/
theorem assemble_erase_congr (p : String) (kpi : List (String × MassKpi))
    (oR1 oA1 oR2 oA2 : OpsDict)
    (hR : eraseOps oR1 = eraseOps oR2) (hA : eraseOps oA1 = eraseOps oA2) :
    eraseSettled (assembleOverview p kpi oR1 oA1)
      = eraseSettled (assembleOverview p kpi oR2 oA2) := by
  obtain ⟨hR1, hR2, hR3, hR4⟩ := sum_ops_by_m_dn oR1 oR2 hR
  obtain ⟨hA1, hA2, hA3, hA4⟩ := sum_ops_by_m_dn oA1 oA2 hA
  obtain ⟨hRtd, hRtn⟩ := sum_ops_total_dn oR1 oR2 hR
  obtain ⟨hAtd, hAtn⟩ := sum_ops_total_dn oA1 oA2 hA
  have hmas : List.map (fun q => ((q : String × MassOut).1, eraseSettledMass q.2))
        (kpi.map (fun q => (q.1, massOutOf (sum_ops_by_masseira oR1)
          (sum_ops_by_masseira oA1) q.1 q.2)))
      = List.map (fun q => ((q : String × MassOut).1, eraseSettledMass q.2))
        (kpi.map (fun q => (q.1, massOutOf (sum_ops_by_masseira oR2)
          (sum_ops_by_masseira oA2) q.1 q.2))) := by
    rw [List.map_map, List.map_map]
    apply List.map_congr_left
    intro q _
    simp only [Function.comp]
    rw [massOut_erase_congr (sum_ops_by_masseira oR1) (sum_ops_by_masseira oA1)
      (sum_ops_by_masseira oR2) (sum_ops_by_masseira oA2) q.1 q.2
      hR1 hR2 hR3 hR4 hA1 hA2 hA3 hA4]
  simp only [assembleOverview, eraseSettled]
  rw [hmas, hRtd, hAtd, hRtn]

theorem ops_for_period_ok (base : List OpsRow) (s e : Int)
    (hbase : ∀ r ∈ base, rowNum r = true) :
    ∃ x, ops_for_period base s e = Except.ok x := by
  have hrows : ∀ r ∈ base.filter
      (fun r => !(decide (r.ts < s) || decide (r.ts > e))), rowNum r = true :=
    fun r hr => hbase r (List.mem_of_mem_filter hr)
  have hpeso : ∀ r ∈ base, numOrNull r.peso = true := by
    intro r hr
    have h := hbase r hr
    simp only [rowNum, Bool.and_eq_true] at h
    exact h.2
  obtain ⟨t1, t2, ht1, ht2, -⟩ := opsLoop_sim (lookMulti base) (lookMulti base)
    (base.filter (fun r => !(decide (r.ts < s) || decide (r.ts > e))))
    initDetState initDetState hrows
    (fun ts dev fb => lookMulti_ok _ hpeso ts dev fb)
    (fun ts dev fb => lookMulti_ok _ hpeso ts dev fb) ⟨rfl, rfl, rfl⟩
  refine ⟨forceClose t1, ?_⟩
  rw [ops_for_period, opsLoopSkip_eq, ht1]
  rfl

theorem overviewsFor_ok (pb : String → Int × Int) (kpis : List KpiRow)
    (baseR baseA : List OpsRow) (ps : List String)
    (hok : ∀ q, (∃ x, ops_for_period baseR (pb q).1 (pb q).2 = Except.ok x)
      ∧ (∃ x, ops_for_period baseA (pb q).1 (pb q).2 = Except.ok x)) :
    ∃ l, overviewsFor pb kpis baseR baseA ps = Except.ok l := by
  induction ps with
  | nil => exact ⟨[], rfl⟩
  | cons q rest ih =>
    obtain ⟨oR, hoR⟩ := (hok q).1
    obtain ⟨oA, hoA⟩ := (hok q).2
    obtain ⟨tail, htail⟩ := ih
    exact ⟨(q, assembleOverview q (kpi_for_period kpis (pb q).1 (pb q).2)
        oR oA) :: tail,
      by simp [overviewsFor, hoR, hoA, htail, Except.bind, Except.map]⟩

theorem overviewsFor_lookup (pb : String → Int × Int) (kpis : List KpiRow)
    (baseR baseA : List OpsRow) (ps : List String) (p : String) (hp : p ∈ ps)
    (hok : ∀ q, (∃ x, ops_for_period baseR (pb q).1 (pb q).2 = Except.ok x)
      ∧ (∃ x, ops_for_period baseA (pb q).1 (pb q).2 = Except.ok x)) :
    ∃ l oR oA, overviewsFor pb kpis baseR baseA ps = Except.ok l ∧
      ops_for_period baseR (pb p).1 (pb p).2 = Except.ok oR ∧
      ops_for_period baseA (pb p).1 (pb p).2 = Except.ok oA ∧
      dictGet l p = some (assembleOverview p
        (kpi_for_period kpis (pb p).1 (pb p).2) oR oA) := by
  induction ps with
  | nil => exact absurd hp (List.not_mem_nil p)
  | cons q rest ih =>
    obtain ⟨oRq, hoRq⟩ := (hok q).1
    obtain ⟨oAq, hoAq⟩ := (hok q).2
    obtain ⟨tail, htail⟩ := overviewsFor_ok pb kpis baseR baseA rest hok
    have hcons : overviewsFor pb kpis baseR baseA (q :: rest)
        = Except.ok ((q, assembleOverview q
            (kpi_for_period kpis (pb q).1 (pb q).2) oRq oAq) :: tail) := by
      simp [overviewsFor, hoRq, hoAq, htail, Except.bind, Except.map]
    by_cases hqp : q = p
    · subst hqp
      refine ⟨_, oRq, oAq, hcons, hoRq, hoAq, ?_⟩
      rw [dictGet, List.find?_cons_of_pos _ (by simp)]
      rfl
    · have hmem : p ∈ rest := by
        rcases List.mem_cons.mp hp with h | h
        · exact absurd h.symm hqp
        · exact h
      obtain ⟨l2, oR, oA, hl2, hoR, hoA, hget⟩ := ih hmem
      have htl : tail = l2 := Except.ok.inj (htail.symm.trans hl2)
      refine ⟨_, oR, oA, hcons, hoR, hoA, ?_⟩
      rw [dictGet, List.find?_cons_of_neg _ (by simp [hqp]), ← dictGet, htl]
      exact hget

/-- Claim C4 amended: for a fixed reference time and fixed stores, every
period of a multi-period call agrees with the single-period overview in the
KPI block (energia, horas, corrente), every operation count and requested
(dosada) quantity, the per-device derived figures and the grand totals -
every field except the real consumed quantities: the multi-period
settlement lookahead scans the whole union-window row set, so a settling
sample outside the requested period but inside the union window can give an
operation a different settled ending weight, changing the *_real fields
(see the counterexample).  Formally: both paths succeed on parseable rows
and the two overviews are equal after erasing the settled-weight-derived
fields. -/
theorem overview_slice_consistency
    (monthStart yearStart : Int → Int) (now : Int)
    (dbK : List KpiRow) (odbR odbA : List OpsRow) (ps : List String)
    (p : String) (hp : p ∈ ps)
    (hokR : ∀ r ∈ odbR, rowNum r = true)
    (hokA : ∀ r ∈ odbA, rowNum r = true) :
    ∃ ovS l ovM,
      calcular_overview monthStart yearStart now dbK odbR odbA p
        = Except.ok ovS ∧
      calcular_overview_multi monthStart yearStart now dbK odbR odbA ps
        = Except.ok l ∧
      dictGet l p = some ovM ∧
      eraseSettled ovM = eraseSettled ovS := by
  obtain ⟨hs, he⟩ :=
    baseBounds_le (periodo_para_datas monthStart yearStart now) ps p hp
  obtain ⟨dR1, dR2, hdR1, hdR2, hdRe⟩ := ops_slice_sim odbR
    (baseBounds (periodo_para_datas monthStart yearStart now) ps).1
    (baseBounds (periodo_para_datas monthStart yearStart now) ps).2
    (periodo_para_datas monthStart yearStart now p).1
    (periodo_para_datas monthStart yearStart now p).2 hs he hokR
  obtain ⟨dA1, dA2, hdA1, hdA2, hdAe⟩ := ops_slice_sim odbA
    (baseBounds (periodo_para_datas monthStart yearStart now) ps).1
    (baseBounds (periodo_para_datas monthStart yearStart now) ps).2
    (periodo_para_datas monthStart yearStart now p).1
    (periodo_para_datas monthStart yearStart now p).2 hs he hokA
  have hbR : ∀ r ∈ fetchOpsRows odbR
      (baseBounds (periodo_para_datas monthStart yearStart now) ps).1
      (baseBounds (periodo_para_datas monthStart yearStart now) ps).2,
      rowNum r = true :=
    fun r hr => hokR r (List.mem_of_mem_filter hr)
  have hbA : ∀ r ∈ fetchOpsRows odbA
      (baseBounds (periodo_para_datas monthStart yearStart now) ps).1
      (baseBounds (periodo_para_datas monthStart yearStart now) ps).2,
      rowNum r = true :=
    fun r hr => hokA r (List.mem_of_mem_filter hr)
  obtain ⟨l, oR, oA, hl, hoR, hoA, hget⟩ := overviewsFor_lookup
    (periodo_para_datas monthStart yearStart now)
    (fetchKpiRows dbK
      (baseBounds (periodo_para_datas monthStart yearStart now) ps).1
      (baseBounds (periodo_para_datas monthStart yearStart now) ps).2)
    (fetchOpsRows odbR
      (baseBounds (periodo_para_datas monthStart yearStart now) ps).1
      (baseBounds (periodo_para_datas monthStart yearStart now) ps).2)
    (fetchOpsRows odbA
      (baseBounds (periodo_para_datas monthStart yearStart now) ps).1
      (baseBounds (periodo_para_datas monthStart yearStart now) ps).2)
    ps p hp
    (fun q => ⟨ops_for_period_ok _ _ _ hbR, ops_for_period_ok _ _ _ hbA⟩)
  have hoRd : oR = dR2 := Except.ok.inj (hoR.symm.trans hdR2)
  have hoAd : oA = dA2 := Except.ok.inj (hoA.symm.trans hdA2)
  refine ⟨assembleOverview p (calcular_totais_masseiras dbK
      (periodo_para_datas monthStart yearStart now p).1
      (periodo_para_datas monthStart yearStart now p).2) dR1 dA1,
    l, assembleOverview p (kpi_for_period (fetchKpiRows dbK
      (baseBounds (periodo_para_datas monthStart yearStart now) ps).1
      (baseBounds (periodo_para_datas monthStart yearStart now) ps).2)
      (periodo_para_datas monthStart yearStart now p).1
      (periodo_para_datas monthStart yearStart now p).2) oR oA,
    ?_, ?_, hget, ?_⟩
  · simp [calcular_overview, hdR1, hdA1, Except.bind, Except.map]
  · rw [calcular_overview_multi, if_neg (List.ne_nil_of_mem hp)]
    exact hl
  · rw [kpi_for_period_eq dbK
      (baseBounds (periodo_para_datas monthStart yearStart now) ps).1
      (baseBounds (periodo_para_datas monthStart yearStart now) ps).2
      (periodo_para_datas monthStart yearStart now p).1
      (periodo_para_datas monthStart yearStart now p).2 hs he, hoRd, hoAd]
    exact assemble_erase_congr p _ dR2 dA2 dR1 dA1 hdRe.symm hdAe.symm

theorem overview_slice_consistency_witness :
    ("hoje" ∈ ["hoje"]) ∧
    (∃ ovS l ovM,
      calcular_overview (fun _ => 0) (fun _ => 0) 100000 [] [] [] "hoje"
        = Except.ok ovS ∧
      calcular_overview_multi (fun _ => 0) (fun _ => 0) 100000 [] [] []
        ["hoje"] = Except.ok l ∧
      dictGet l "hoje" = some ovM ∧
      eraseSettled ovM = eraseSettled ovS) :=
  ⟨List.mem_cons_self "hoje" [],
   overview_slice_consistency (fun _ => 0) (fun _ => 0) 100000 [] [] []
     ["hoje"] "hoje" (List.mem_cons_self "hoje" [])
     (fun r hr => absurd hr (List.not_mem_nil r))
     (fun r hr => absurd hr (List.not_mem_nil r))⟩

/-- C4 fixture: one resina tank row (all signals numeric). -/
def c4row (t : Int) (ov w : ℚ) : OpsRow :=
  { ts := t, dev := "T", dSel := SVal.num 1, bLiga := SVal.num 1,
    opAnd := SVal.num ov, v1 := SVal.num 1, v2 := SVal.num 0,
    qtdSolic := SVal.num 50, peso := SVal.num w }

/-- C4 fixture: a discharge inside "ontem" whose scale settles only at
t=86420, which is past midnight - outside "ontem" but inside the union
window of ["ontem", "hoje"]. -/
def c4rows : List OpsRow :=
  [c4row 86300 1 100, c4row 86330 1 97, c4row 86340 0 95, c4row 86420 0 90]

def c4opS : OpsDict :=
  [("T", ([{ horario := some 86300, qntSolicitada := some 50,
             pesoInicio := some 100, pesoFim := some 97 }], []))]

def c4opM : OpsDict :=
  [("T", ([{ horario := some 86300, qntSolicitada := some 50,
             pesoInicio := some 100, pesoFim := some 90 }], []))]

/-- Counterexample to claim C4 as stated: with a discharge falling at
t=86340 of "ontem" and the next same-device sample at t=86420 (inside
"hoje"), the multi-period call settles the ending weight on the union
window (90) while the single-period call never sees the settling sample
and keeps the last Active weight (97): resina_real is 10 in
calcular_overview_multi(["ontem","hoje"])["ontem"] but 3 in
calcular_overview("ontem"). -/
theorem overview_slice_counterexample :
    (calcular_overview_multi (fun _ => 0) (fun _ => 0) 100000 [] c4rows []
        ["ontem", "hoje"]).map
        (fun l => (dictGet l "ontem").map
          (fun ov => ov.materias_primas.resina_real))
      = Except.ok (some 10) ∧
    (calcular_overview (fun _ => 0) (fun _ => 0) 100000 [] c4rows []
        "ontem").map (fun ov => ov.materias_primas.resina_real)
      = Except.ok 3 := by
  have hbnds : periodo_para_datas (fun _ => 0) (fun _ => 0) 100000 "ontem"
      = (0, 86399) := by decide
  have hbndj : periodo_para_datas (fun _ => 0) (fun _ => 0) 100000 "hoje"
      = (86400, 100000) := by decide
  have hbb : baseBounds (periodo_para_datas (fun _ => 0) (fun _ => 0) 100000)
      ["ontem", "hoje"] = (0, 100000) := by decide
  have h1 : calcula_operacoes_descarga_tanques c4rows 0 86399
      = Except.ok c4opS := by decide
  have h2 : ops_for_period (fetchOpsRows c4rows 0 100000) 0 86399
      = Except.ok c4opM := by decide
  have h3 : ops_for_period (fetchOpsRows c4rows 0 100000) 86400 100000
      = Except.ok [] := by decide
  have h4 : ops_for_period (fetchOpsRows ([] : List OpsRow) 0 100000) 0 86399
      = Except.ok [] := by decide
  have h5 : ops_for_period (fetchOpsRows ([] : List OpsRow) 0 100000)
      86400 100000 = Except.ok [] := by decide
  have h6 : calcula_operacoes_descarga_tanques ([] : List OpsRow) 0 86399
      = Except.ok [] := by decide
  constructor
  · rw [calcular_overview_multi,
      if_neg (by decide : ¬(["ontem", "hoje"] = ([] : List String)))]
    simp only [hbb, overviewsFor, hbnds, hbndj, h2, h3, h4, h5,
      Except.bind, Except.map]
    simp +decide only [dictGet, List.find?, Option.map, Option.some.injEq,
      Except.ok.injEq, assembleOverview]
    norm_num [sum_ops_total, sumOpsList, c4opM, pyRound, roundHalfEvenZ]
  · simp only [calcular_overview, hbnds, h1, h6, Except.bind, Except.map]
    simp only [assembleOverview, Except.ok.injEq]
    norm_num [sum_ops_total, sumOpsList, c4opS, pyRound, roundHalfEvenZ]

end ScadaIFOX
